import Mathlib

/-!
# Verification of the mothics streaming recorder and metadata index

Shallow embedding of the core of the `mothics-analysis` repository:
the streaming recorder (`src/mothics/track.py`, class `Track` and the
exporter functions) and the metadata index (`src/mothics/database.py`,
class `Database`).

Modelling conventions:
- Python `datetime.now()` is threaded explicitly as a `Nat` clock value
  `now`; the `strftime("%Y%m%d-%H%M%S")` timestamp string written into
  file names is modelled as the decimal string of that clock value.
- Python numeric expressions (the trim-fraction arithmetic
  `(len-1)/len` and `int(len * fraction)`) are modelled with exact
  rational arithmetic (`ℚ`); Python `int()` of a nonnegative value is
  `Int.floor` followed by `Int.toNat`.
- The filesystem is explicit state: the files a `Track` has written are
  a list of `WrittenFile`; writing a file with an existing name in the
  same directory overwrites it.
- Python exceptions are values of `PyErr`; functions that can raise
  return `Except PyErr _`.  `except Exception` catches every `PyErr`.
- Datetimes are naive (no timezone), as produced by the recorder.
-/

namespace Mothics

/-- A scalar field value, as permitted by `TRACK_SCHEMA` in
`database.py`: number, string, boolean or null.  Numbers are modelled
exactly. -/
inductive Scalar where
  | num (q : ℚ)
  | str (s : String)
  | bool (b : Bool)
  | null
deriving DecidableEq

/-- A naive Python `datetime`, component-wise.  Source: `track.py`
uses `datetime` objects as `DataPoint.timestamp`. -/
structure Datetime where
  year : Nat
  month : Nat
  day : Nat
  hour : Nat
  minute : Nat
  second : Nat
  microsecond : Nat
deriving DecidableEq

/-- Model of `DataPoint` from `track.py` (lines 39-49): a timestamp plus a flat
dictionary of sensor readings.  The dictionary is modelled as an
insertion-ordered association list, mirroring a Python `dict`. -/
structure DataPoint where
  timestamp : Datetime
  input_data : List (String × Scalar)
deriving DecidableEq

/-- A Python exception class, as far as the modelled code can tell
exceptions apart. -/
inductive PyErr where
  | valueError
  | runtimeError
  | typeError
  | unboundLocal
  | indexError
  | attributeError
  | ioError
  | fileNotFound
deriving DecidableEq

/-- Python list slicing index resolution: a negative index counts from
the end, and the result is clamped into `[0, len]`. -/
def pyIdx (len : Nat) (i : Int) : Nat :=
  if i < 0 then ((len : Int) + i).toNat else min i.toNat len

/-- Python `xs[a:b]` for an optional start (`None` meaning 0) and an
integer stop, as used by `slice(self._save_interval_start,
len(self.data_points) - 1)` in `track.py`. -/
def pySlice {α : Type} (xs : List α) (start : Option Int) (stop : Int) : List α :=
  let s := match start with
    | none => 0
    | some v => pyIdx xs.length v
  let e := pyIdx xs.length stop
  (xs.take e).drop s

/-- An `interval` argument to an exporter: `None` or a
`slice(start, stop)` object. -/
def applyInterval {α : Type} (xs : List α) :
    Option (Option Int × Int) → List α
  | none => xs
  | some (a, b) => pySlice xs a b

/-- A file written by the recorder.  `inChk` says whether it lives in
the checkpoint subdirectory `chk/`; `mtime` is the clock value at the
write; `content` records the list of data points that was handed to the
exporter for this file. -/
structure WrittenFile where
  name : List Char
  inChk : Bool
  mtime : Nat
  content : List DataPoint
deriving DecidableEq

/-- Python `str.endswith` over character lists (file names are
modelled as `List Char` so that suffix facts stay provable). -/
def endsWithCL (s suffix : List Char) : Bool :=
  if suffix.length ≤ s.length then
    decide (s.drop (s.length - suffix.length) = suffix)
  else false

/-- Overwriting write into a directory-tagged file list: a file with
the same name in the same directory is replaced. -/
def fsWriteFile (files : List WrittenFile) (f : WrittenFile) : List WrittenFile :=
  files.filter (fun g => !(g.name = f.name && g.inChk = f.inChk)) ++ [f]

/-- The `save_mode` attribute of `Track`: `"continuous"`,
`"on-demand"` or `"none"`. -/
inductive SaveMode where
  | continuous
  | onDemand
  | noneMode
deriving DecidableEq

/-- The mutable state of a `Track` (`track.py`, `__init__`, lines
241-312), restricted to the attributes the verified operations read or
write.  `files` is the modelled filesystem contents (exports and
checkpoints written by this track). -/
structure TrackState where
  data_points : List DataPoint
  field_names : Option (List String)
  save_mode : SaveMode
  checkpoint_interval : Option Nat
  max_checkpoint_files : Nat
  trim_fraction : ℚ
  max_datapoints : Nat
  preprocessors : List (DataPoint → DataPoint)
  save_interval_start : Option Int
  last_checkpoint : Option Nat
  files : List WrittenFile

/-- The timestamp string `datetime.now().strftime("%Y%m%d-%H%M%S")`
used in generated file names, modelled as the decimal digit string of
the `Nat` clock. -/
def timeStr (now : Nat) : List Char := Nat.toDigits 10 now

/-- Model of `Track._remove_datapoints(start, fraction)` (`track.py`, lines
405-430): clamp the fraction into `[0,1]`, compute
`int(len * fraction)`, clamp the start, and delete that contiguous
range. -/
def removeDatapoints (st : TrackState) (start : Nat) (fraction : ℚ) : TrackState :=
  if st.data_points = [] then st
  else
    let f := max 0 (min fraction 1)
    let n := st.data_points.length
    let numToRemove := (Int.floor ((n : ℚ) * f)).toNat
    let s := min start (n - 1)
    let e := min (s + numToRemove) n
    { st with data_points := st.data_points.take s ++ st.data_points.drop e }

/-- The string name of a built-in export format, the keys of
`_export_methods` in `track.py` (line 226). -/
inductive KnownFmt where
  | json
  | csv
  | gpx
deriving DecidableEq

/-- The extension string of a known format. -/
def KnownFmt.ext : KnownFmt → List Char
  | .json => "json".toList
  | .csv => "csv".toList
  | .gpx => "gpx".toList

/-- The `file_format` argument of `Track.save`: a registered format
name, an unrecognized string, or a caller-supplied callable.  The
callable carries no payload because `Track.save` never actually invokes
it: building the file path evaluates `fname + '.' + file_format`, which
raises `TypeError` on a callable before the call site is reached. -/
inductive FileFormat where
  | knownStr (k : KnownFmt)
  | unknownStr (s : List Char)
  | callable

/-- The body of a built-in exporter, returning the data points that
get written (the sliced list) or the exception it raises.
- `export_to_json` (lines 96-120) always succeeds on a list input;
- `export_to_csv` (lines 122-158) derives the column list from
  `data_points_to_export[0]` (IndexError on an empty slice) and its
  `csv.DictWriter` raises `ValueError` when a later row has a key
  outside the derived field list;
- `export_to_gpx` (lines 160-224) skips unusable points and never
  raises on a list input. -/
def runExporter (k : KnownFmt) (dps : List DataPoint)
    (interval : Option (Option Int × Int)) : Except PyErr (List DataPoint) :=
  let sliced := applyInterval dps interval
  match k with
  | .json => Except.ok sliced
  | .csv =>
    match sliced with
    | [] => Except.error PyErr.indexError
    | p₀ :: rest =>
      let fns := "timestamp" :: p₀.input_data.map Prod.fst
      if rest.all (fun p => p.input_data.all (fun kv => fns.contains kv.1)) then
        Except.ok sliced
      else
        Except.error PyErr.valueError
  | .gpx => Except.ok sliced

/-- Python `except Exception` around a computation: an exception value
is absorbed and the pre-`try` state is returned. -/
def pyCatchAll (st : TrackState) : Except PyErr TrackState → Except PyErr TrackState
  | Except.ok st' => Except.ok st'
  | Except.error _ => Except.ok st

/-- Model of `Track.save` (`track.py`, lines 361-403), with the possibility of
propagating an exception made explicit in the return type.

`wr` is the outcome of the filesystem write performed by the selected
exporter (quantified over in the theorems: the write may fail with any
exception).  The structure follows the source: resolve the file name
and output directory, dispatch on `file_format` (an unrecognized
format only logs, leaving the local variable `export` unbound), then a
`try` block computes `file_path` (raising `TypeError` when
`file_format` is a callable, since `fname + '.' + file_format`
concatenates a string with a function), calls the exporter (raising
`UnboundLocalError` when `export` was never assigned), and performs
the write; `except Exception` absorbs every exception raised inside
the `try` block. -/
def trackSaveE (wr : Except PyErr Unit) (st : TrackState) (ff : FileFormat)
    (fname : Option (List Char)) (outChk : Bool) (interval : Option (Option Int × Int))
    (now : Nat) : Except PyErr TrackState :=
  let fn := fname.getD (timeStr now)
  let tryBody : Except PyErr TrackState := do
    let ext ← match ff with
      | .knownStr k => Except.ok k.ext
      | .unknownStr s => Except.ok s
      | .callable => Except.error PyErr.typeError
    let path := fn ++ ".".toList ++ ext
    let content ← match ff with
      | .knownStr k => runExporter k st.data_points interval
      | .unknownStr _ => Except.error PyErr.unboundLocal
      | .callable => Except.error PyErr.typeError
    match wr with
      | Except.ok _ => pure ()
      | Except.error e => Except.error e
    Except.ok { st with files := fsWriteFile st.files ⟨path, outChk, now, content⟩ }
  pyCatchAll st tryBody

/-- Model of `Track.save` on the happy filesystem (writes succeed), with the
default `file_format='json'`, as invoked by `end_run` and
`_save_checkpoint`. -/
def doSave (st : TrackState) (fname : Option (List Char)) (outChk : Bool)
    (interval : Option (Option Int × Int)) (now : Nat) : TrackState :=
  match trackSaveE (Except.ok ()) st (FileFormat.knownStr KnownFmt.json)
      fname outChk interval now with
  | Except.ok st' => st'
  | Except.error _ => st

/-- The write half of `Track._save_checkpoint` (`track.py`, lines
486-495): when due (no previous checkpoint, interval elapsed, or
forced), record the checkpoint time and save the slice
`[_save_interval_start, len-1)` under a `<time>[<specifier>].chk`
name into the checkpoint directory.  Only called under the
`save_mode == 'continuous' and checkpoint_interval is not None`
guard. -/
def chkWriteStep (st : TrackState) (now : Nat) (force : Bool)
    (specifier : Option (List Char)) : TrackState :=
  let due := match st.last_checkpoint with
    | none => true
    | some last => decide ((st.checkpoint_interval.getD 0 : Nat) < now - last) || force
  if due then
    let fn := timeStr now ++ (match specifier with
      | none => []
      | some sp => sp) ++ ".chk".toList
    let st' := { st with last_checkpoint := some now }
    doSave st' (some fn) true
      (some (st.save_interval_start, (st.data_points.length : Int) - 1)) now
  else st

/-- The retention half of `_save_checkpoint` (lines 497-505): among
the checkpoint files not tagged `-full`, sorted by modification time,
delete the oldest single file when more than `max_checkpoint_files`
remain. -/
def oldestFile : List WrittenFile → Option WrittenFile
  | [] => none
  | f :: rest =>
    match oldestFile rest with
    | none => some f
    | some g => if g.mtime < f.mtime then some g else some f

/-- See `oldestFile`: pruning step of `_save_checkpoint`. -/
def chkPruneStep (st : TrackState) : TrackState :=
  let chkAll := st.files.filter (fun f => f.inChk && endsWithCL f.name ".chk.json".toList)
  let nonFull := chkAll.filter (fun f => !endsWithCL f.name "-full.chk.json".toList)
  if st.max_checkpoint_files < nonFull.length then
    match oldestFile nonFull with
    | none => st
    | some victim =>
      { st with files := st.files.filter (fun f => !(f.inChk && f.name = victim.name)) }
  else st

/-- Model of `Track._save_checkpoint(force, specifier)` (`track.py`, lines
476-505): active only in `'continuous'` save mode with a configured
interval; write step followed by retention step. -/
def saveCheckpoint (st : TrackState) (now : Nat) (force : Bool)
    (specifier : Option (List Char)) : TrackState :=
  if st.save_mode = SaveMode.continuous ∧ st.checkpoint_interval ≠ none then
    chkPruneStep (chkWriteStep st now force specifier)
  else st

/-- The body of `Track.add_point` after the schema check (`track.py`,
lines 530-546): emergency `-full` checkpoint and trim when the buffer
exceeds `max_datapoints`, preprocessing, append, then the periodic
checkpoint policy. -/
def addPointBody (st : TrackState) (now : Nat) (ts : Datetime)
    (data : List (String × Scalar)) : TrackState :=
  let st₁ :=
    if st.max_datapoints < st.data_points.length then
      let stc := saveCheckpoint st now true (some "-full".toList)
      let n := stc.data_points.length
      removeDatapoints stc 0 (((n : ℚ) - 1) / (n : ℚ))
    else st
  let dp := st.preprocessors.foldl (fun d p => p d) (DataPoint.mk ts data)
  let st₂ := { st₁ with data_points := st₁.data_points ++ [dp] }
  saveCheckpoint st₂ now false none

/-- Model of `Track.add_point(timestamp, data)` (`track.py`, lines
507-546): when a field schema is configured, raise `ValueError` unless
the key set of `data` equals the schema's key set; then run
`addPointBody`. -/
def addPoint (st : TrackState) (now : Nat) (ts : Datetime)
    (data : List (String × Scalar)) : Except PyErr TrackState :=
  match st.field_names with
  | some fns =>
    if fns.toFinset ≠ (data.map Prod.fst).toFinset then
      Except.error PyErr.valueError
    else
      Except.ok (addPointBody st now ts data)
  | none => Except.ok (addPointBody st now ts data)

/-- Model of `Track.start_run` (`track.py`, lines 432-449). -/
def startRun (st : TrackState) : TrackState :=
  if st.save_mode = SaveMode.onDemand then
    let s : Int := (st.data_points.length : Int) - 1
    let st₁ := { st with
      save_mode := SaveMode.continuous
      save_interval_start := some s }
    if 0 < s then removeDatapoints st₁ 0 st.trim_fraction else st₁
  else st

/-- Model of `Track.end_run` (`track.py`, lines 451-474): unless already
`'on-demand'`, save the slice `[_save_interval_start, len-1)` as a
final export, delete every checkpoint file not tagged `-full`, clear
the cursors, and switch to `'on-demand'`. -/
def endRun (st : TrackState) (now : Nat) : TrackState :=
  if st.save_mode ≠ SaveMode.onDemand then
    let st₁ := doSave st none false
      (some (st.save_interval_start, (st.data_points.length : Int) - 1)) now
    let st₂ := { st₁ with files := st₁.files.filter (fun f =>
      !(f.inChk && endsWithCL f.name ".chk.json".toList
        && !endsWithCL f.name "-full.chk.json".toList)) }
    { st₂ with
      save_interval_start := none
      last_checkpoint := none
      save_mode := SaveMode.onDemand }
  else st

/-- Python dictionary attribute lookup `dp.<attr>` on a `DataPoint`
object, for attributes holding the field dictionary: the `DataPoint`
dataclass (`track.py`, lines 39-49) defines exactly `timestamp` and
`input_data`, so only `input_data` resolves here and any other name
(in particular `data`) raises `AttributeError`, modelled as `none`. -/
def dataPointDictAttr (dp : DataPoint) (attr : String) :
    Option (List (String × Scalar)) :=
  if attr = "input_data" then some dp.input_data else none

/-- Python dict assignment `d[k] = v`: replace in place if the key
exists (keeping its position), else append. -/
def dictUpsertDP : List (String × DataPoint) → String → DataPoint
    → List (String × DataPoint)
  | [], k, v => [(k, v)]
  | (k', v') :: rest, k, v =>
    if k' = k then (k', v) :: rest else (k', v') :: dictUpsertDP rest k v

/-- The accumulation loop of `get_latest_data`:
`for dp in data_points: for field, value in dp.data.items():
latest_data[field] = dp`.  Evaluating `dp.data` raises
`AttributeError` because the dataclass defines no such attribute. -/
def latestLoop (dps : List DataPoint) :
    Except PyErr (List (String × DataPoint)) :=
  dps.foldlM (fun acc dp =>
    match dataPointDictAttr dp "data" with
    | none => Except.error PyErr.attributeError
    | some items =>
      Except.ok (items.foldl (fun m kv => dictUpsertDP m kv.1 dp) acc)) []

/-- Model of `Track.get_latest_data` (`track.py`, lines 548-565):
return `[]` on an empty buffer, else run the accumulation loop and
return `list(latest_data.values())`. -/
def getLatestData (dps : List DataPoint) : Except PyErr (List DataPoint) :=
  if dps = [] then Except.ok []
  else (latestLoop dps).map (fun m => m.map Prod.snd)

/-- One call description for a sequence of `add_point` calls: the
clock value, the timestamp argument and the data argument. -/
structure AddCall where
  now : Nat
  ts : Datetime
  data : List (String × Scalar)

/-- Run a sequence of `add_point` calls, collecting the state after
each call that returns; a raising call ends the run. -/
def addTrace (st : TrackState) : List AddCall → List TrackState
  | [] => []
  | c :: rest =>
    match addPoint st c.now c.ts c.data with
    | Except.error _ => []
    | Except.ok st' => st' :: addTrace st' rest

/-! ## Basic computation lemmas about the recorder model -/

theorem doSave_eq (st : TrackState) (fname : Option (List Char)) (outChk : Bool)
    (interval : Option (Option Int × Int)) (now : Nat) :
    doSave st fname outChk interval now =
      { st with files := (fsWriteFile st.files
          ⟨fname.getD (timeStr now) ++ ".".toList ++ "json".toList, outChk, now,
            applyInterval st.data_points interval⟩) } := rfl

theorem chkWriteStep_data_points (st : TrackState) (now : Nat) (force : Bool)
    (specifier : Option (List Char)) :
    (chkWriteStep st now force specifier).data_points = st.data_points := by
  unfold chkWriteStep
  repeat' split
  all_goals simp [doSave_eq]
  all_goals split <;> simp [doSave_eq]

theorem chkWriteStep_max_datapoints (st : TrackState) (now : Nat) (force : Bool)
    (specifier : Option (List Char)) :
    (chkWriteStep st now force specifier).max_datapoints = st.max_datapoints := by
  unfold chkWriteStep
  repeat' split
  all_goals simp [doSave_eq]
  all_goals split <;> simp [doSave_eq]

theorem chkWriteStep_preprocessors (st : TrackState) (now : Nat) (force : Bool)
    (specifier : Option (List Char)) :
    (chkWriteStep st now force specifier).preprocessors = st.preprocessors := by
  unfold chkWriteStep
  repeat' split
  all_goals simp [doSave_eq]
  all_goals split <;> simp [doSave_eq]

theorem chkWriteStep_field_names (st : TrackState) (now : Nat) (force : Bool)
    (specifier : Option (List Char)) :
    (chkWriteStep st now force specifier).field_names = st.field_names := by
  unfold chkWriteStep
  repeat' split
  all_goals simp [doSave_eq]
  all_goals split <;> simp [doSave_eq]

theorem chkPruneStep_data_points (st : TrackState) :
    (chkPruneStep st).data_points = st.data_points := by
  simp only [chkPruneStep]
  repeat' split
  all_goals rfl

theorem chkPruneStep_max_datapoints (st : TrackState) :
    (chkPruneStep st).max_datapoints = st.max_datapoints := by
  simp only [chkPruneStep]
  repeat' split
  all_goals rfl

theorem chkPruneStep_preprocessors (st : TrackState) :
    (chkPruneStep st).preprocessors = st.preprocessors := by
  simp only [chkPruneStep]
  repeat' split
  all_goals rfl

theorem chkPruneStep_field_names (st : TrackState) :
    (chkPruneStep st).field_names = st.field_names := by
  simp only [chkPruneStep]
  repeat' split
  all_goals rfl

theorem saveCheckpoint_data_points (st : TrackState) (now : Nat) (force : Bool)
    (specifier : Option (List Char)) :
    (saveCheckpoint st now force specifier).data_points = st.data_points := by
  unfold saveCheckpoint
  split
  · rw [chkPruneStep_data_points, chkWriteStep_data_points]
  · rfl

theorem saveCheckpoint_max_datapoints (st : TrackState) (now : Nat) (force : Bool)
    (specifier : Option (List Char)) :
    (saveCheckpoint st now force specifier).max_datapoints = st.max_datapoints := by
  unfold saveCheckpoint
  split
  · rw [chkPruneStep_max_datapoints, chkWriteStep_max_datapoints]
  · rfl

theorem saveCheckpoint_preprocessors (st : TrackState) (now : Nat) (force : Bool)
    (specifier : Option (List Char)) :
    (saveCheckpoint st now force specifier).preprocessors = st.preprocessors := by
  unfold saveCheckpoint
  split
  · rw [chkPruneStep_preprocessors, chkWriteStep_preprocessors]
  · rfl

theorem saveCheckpoint_field_names (st : TrackState) (now : Nat) (force : Bool)
    (specifier : Option (List Char)) :
    (saveCheckpoint st now force specifier).field_names = st.field_names := by
  unfold saveCheckpoint
  split
  · rw [chkPruneStep_field_names, chkWriteStep_field_names]
  · rfl

theorem removeDatapoints_shape (st : TrackState) (start : Nat) (fraction : ℚ) :
    removeDatapoints st start fraction =
      { st with data_points := (removeDatapoints st start fraction).data_points } := by
  unfold removeDatapoints
  split
  · simp
  · simp

/-- The trim performed by `add_point` when the buffer is full: with the
exact fraction `(n-1)/n` for a buffer of length `n ≥ 1`, the
computation `int(len * fraction)` removes the first `n-1` points,
leaving the trailing sample. -/
theorem removeDatapoints_almost_all (st : TrackState)
    (h1 : 1 ≤ st.data_points.length) :
    (removeDatapoints st 0
        (((st.data_points.length : ℚ) - 1) / (st.data_points.length : ℚ))).data_points
      = st.data_points.drop (st.data_points.length - 1) := by
  have hne : ¬(st.data_points = []) := by
    intro h
    rw [h] at h1
    simp at h1
  unfold removeDatapoints
  rw [if_neg hne]
  have hn0 : (0 : ℚ) < (st.data_points.length : ℚ) := by exact_mod_cast h1
  have hn1 : (1 : ℚ) ≤ (st.data_points.length : ℚ) := by exact_mod_cast h1
  have hle : ((st.data_points.length : ℚ) - 1) / (st.data_points.length : ℚ) ≤ 1 := by
    rw [div_le_one hn0]
    linarith
  have hge : (0 : ℚ) ≤ ((st.data_points.length : ℚ) - 1) / (st.data_points.length : ℚ) :=
    div_nonneg (by linarith) hn0.le
  have hf : max 0 (min (((st.data_points.length : ℚ) - 1) / (st.data_points.length : ℚ)) 1)
      = ((st.data_points.length : ℚ) - 1) / (st.data_points.length : ℚ) := by
    rw [min_eq_left hle, max_eq_right hge]
  simp only [hf]
  have hmul : (st.data_points.length : ℚ)
      * (((st.data_points.length : ℚ) - 1) / (st.data_points.length : ℚ))
      = ((st.data_points.length : ℚ) - 1) := by
    field_simp
  rw [hmul]
  have hcast : ((st.data_points.length : ℚ) - 1)
      = (((st.data_points.length : ℤ) - 1 : ℤ) : ℚ) := by
    push_cast
    ring
  rw [hcast, Int.floor_intCast]
  have htn : ((st.data_points.length : ℤ) - 1).toNat = st.data_points.length - 1 := by
    omega
  rw [htn]
  have hmin : min 0 (st.data_points.length - 1) = 0 := by omega
  have hmin2 : min (0 + (st.data_points.length - 1)) st.data_points.length
      = st.data_points.length - 1 := by omega
  rw [hmin, hmin2]
  simp

/-- Characterization of the buffer after a successful `add_point`:
either a plain append, or (full buffer) trim-to-trailing-sample then
append. -/
theorem addPointBody_data_points (st : TrackState) (now : Nat) (ts : Datetime)
    (data : List (String × Scalar)) :
    (addPointBody st now ts data).data_points =
      (if st.max_datapoints < st.data_points.length
        then st.data_points.drop (st.data_points.length - 1)
        else st.data_points)
      ++ [st.preprocessors.foldl (fun d p => p d) (DataPoint.mk ts data)] := by
  by_cases hc : st.max_datapoints < st.data_points.length
  · have h1 : 1 ≤ st.data_points.length := by omega
    simp only [addPointBody, if_pos hc, saveCheckpoint_data_points]
    have hsc : (saveCheckpoint st now true (some "-full".toList)).data_points
        = st.data_points := saveCheckpoint_data_points _ _ _ _
    have htrim := removeDatapoints_almost_all (saveCheckpoint st now true (some "-full".toList))
      (by rw [hsc]; exact h1)
    rw [hsc] at htrim
    rw [htrim]
  · simp only [addPointBody, if_neg hc, saveCheckpoint_data_points]

theorem addPointBody_max_datapoints (st : TrackState) (now : Nat) (ts : Datetime)
    (data : List (String × Scalar)) :
    (addPointBody st now ts data).max_datapoints = st.max_datapoints := by
  unfold addPointBody
  by_cases hc : st.max_datapoints < st.data_points.length
  · simp only [if_pos hc, saveCheckpoint_max_datapoints]
    rw [removeDatapoints_shape]
    simp [saveCheckpoint_max_datapoints]
  · simp only [if_neg hc, saveCheckpoint_max_datapoints]

theorem addPointBody_field_names (st : TrackState) (now : Nat) (ts : Datetime)
    (data : List (String × Scalar)) :
    (addPointBody st now ts data).field_names = st.field_names := by
  unfold addPointBody
  by_cases hc : st.max_datapoints < st.data_points.length
  · simp only [if_pos hc, saveCheckpoint_field_names]
    rw [removeDatapoints_shape]
    simp [saveCheckpoint_field_names]
  · simp only [if_neg hc, saveCheckpoint_field_names]

theorem addPointBody_preprocessors (st : TrackState) (now : Nat) (ts : Datetime)
    (data : List (String × Scalar)) :
    (addPointBody st now ts data).preprocessors = st.preprocessors := by
  unfold addPointBody
  by_cases hc : st.max_datapoints < st.data_points.length
  · simp only [if_pos hc, saveCheckpoint_preprocessors]
    rw [removeDatapoints_shape]
    simp [saveCheckpoint_preprocessors]
  · simp only [if_neg hc, saveCheckpoint_preprocessors]

theorem addPoint_ok_body {st st' : TrackState} {now : Nat} {ts : Datetime}
    {data : List (String × Scalar)}
    (h : addPoint st now ts data = Except.ok st') :
    st' = addPointBody st now ts data := by
  cases hf : st.field_names with
  | none =>
    simp only [addPoint, hf, Except.ok.injEq] at h
    exact h.symm
  | some fns =>
    simp only [addPoint, hf] at h
    by_cases hk : fns.toFinset ≠ (data.map Prod.fst).toFinset
    · rw [if_pos hk] at h
      simp at h
    · rw [if_neg hk] at h
      simp only [Except.ok.injEq] at h
      exact h.symm

theorem addPoint_ok_length {st st' : TrackState} {now : Nat} {ts : Datetime}
    {data : List (String × Scalar)}
    (h : addPoint st now ts data = Except.ok st') :
    st'.data_points.length =
      if st.max_datapoints < st.data_points.length
        then 2 else st.data_points.length + 1 := by
  rw [addPoint_ok_body h, addPointBody_data_points]
  by_cases hc : st.max_datapoints < st.data_points.length
  · rw [if_pos hc, if_pos hc]
    simp only [List.length_append, List.length_drop, List.length_cons,
      List.length_nil]
    omega
  · rw [if_neg hc, if_neg hc]
    simp

theorem addPoint_ok_max {st st' : TrackState} {now : Nat} {ts : Datetime}
    {data : List (String × Scalar)}
    (h : addPoint st now ts data = Except.ok st') :
    st'.max_datapoints = st.max_datapoints := by
  rw [addPoint_ok_body h, addPointBody_max_datapoints]

theorem endsWithCL_append (a b : List Char) : endsWithCL (a ++ b) b = true := by
  unfold endsWithCL
  rw [if_pos (by simp)]
  have hlen : (a ++ b).length - b.length = a.length := by simp
  rw [hlen, List.drop_left]
  simp

theorem oldestFile_mem {l : List WrittenFile} {f : WrittenFile}
    (h : oldestFile l = some f) : f ∈ l := by
  induction l with
  | nil => simp [oldestFile] at h
  | cons g rest ih =>
    rw [oldestFile] at h
    cases hr : oldestFile rest with
    | none =>
      rw [hr] at h
      simp at h
      simp [h]
    | some g' =>
      rw [hr] at h
      by_cases hm : g'.mtime < g.mtime
      · simp [hm] at h
        subst h
        exact List.mem_cons_of_mem _ (ih hr)
      · simp [hm] at h
        simp [h]

/-- Files tagged `-full` are exempt from the retention pruning of
`_save_checkpoint` (`track.py`, lines 497-505). -/
theorem chkPruneStep_mem_full {st : TrackState} {f : WrittenFile}
    (hf : f ∈ st.files)
    (hfull : endsWithCL f.name "-full.chk.json".toList = true) :
    f ∈ (chkPruneStep st).files := by
  simp only [chkPruneStep]
  split
  · cases hv : oldestFile (List.filter
        (fun f => !endsWithCL f.name "-full.chk.json".toList)
        (List.filter (fun f => f.inChk && endsWithCL f.name ".chk.json".toList) st.files)) with
    | none => simpa [hv] using hf
    | some victim =>
      have hvmem := oldestFile_mem hv
      have hvfull : endsWithCL victim.name "-full.chk.json".toList = false := by
        have := (List.mem_filter.mp hvmem).2
        simpa using this
      have hne : f.name ≠ victim.name := by
        intro he
        rw [he, hvfull] at hfull
        exact Bool.false_ne_true hfull
      simp only [hv]
      refine List.mem_filter.mpr ⟨hf, ?_⟩
      simp [hne]
  · exact hf

/-- When the `save_mode`/`checkpoint_interval` guard fails,
`_save_checkpoint` does nothing. -/
theorem saveCheckpoint_inactive {st : TrackState} (now : Nat) (force : Bool)
    (specifier : Option (List Char))
    (h : ¬(st.save_mode = SaveMode.continuous ∧ st.checkpoint_interval ≠ none)) :
    saveCheckpoint st now force specifier = st := by
  unfold saveCheckpoint
  rw [if_neg h]

/-- A forced checkpoint always takes the write branch. -/
theorem chkWriteStep_force (st : TrackState) (now : Nat)
    (specifier : Option (List Char)) :
    chkWriteStep st now true specifier =
      doSave { st with last_checkpoint := some now }
        (some (timeStr now ++ (match specifier with
          | none => []
          | some sp => sp) ++ ".chk".toList)) true
        (some (st.save_interval_start, (st.data_points.length : Int) - 1)) now := by
  unfold chkWriteStep
  cases hlc : st.last_checkpoint <;> simp

/-- An unforced checkpoint whose interval has not elapsed writes
nothing. -/
theorem chkWriteStep_stale {st : TrackState} {l : Nat} (now : Nat)
    (specifier : Option (List Char))
    (h : st.last_checkpoint = some l)
    (h2 : ¬(st.checkpoint_interval.getD 0 < now - l)) :
    chkWriteStep st now false specifier = st := by
  unfold chkWriteStep
  simp [h, h2]

theorem chkWriteStep_last_force (st : TrackState) (now : Nat)
    (specifier : Option (List Char)) :
    (chkWriteStep st now true specifier).last_checkpoint = some now := by
  rw [chkWriteStep_force, doSave_eq]

theorem chkPruneStep_last_checkpoint (st : TrackState) :
    (chkPruneStep st).last_checkpoint = st.last_checkpoint := by
  simp only [chkPruneStep]
  repeat' split
  all_goals rfl

theorem chkPruneStep_save_mode (st : TrackState) :
    (chkPruneStep st).save_mode = st.save_mode := by
  simp only [chkPruneStep]
  repeat' split
  all_goals rfl

theorem chkPruneStep_checkpoint_interval (st : TrackState) :
    (chkPruneStep st).checkpoint_interval = st.checkpoint_interval := by
  simp only [chkPruneStep]
  repeat' split
  all_goals rfl

theorem chkWriteStep_save_mode (st : TrackState) (now : Nat) (force : Bool)
    (specifier : Option (List Char)) :
    (chkWriteStep st now force specifier).save_mode = st.save_mode := by
  unfold chkWriteStep
  repeat' split
  all_goals simp [doSave_eq]
  all_goals split <;> simp [doSave_eq]

theorem chkWriteStep_checkpoint_interval (st : TrackState) (now : Nat) (force : Bool)
    (specifier : Option (List Char)) :
    (chkWriteStep st now force specifier).checkpoint_interval
      = st.checkpoint_interval := by
  unfold chkWriteStep
  repeat' split
  all_goals simp [doSave_eq]
  all_goals split <;> simp [doSave_eq]

theorem saveCheckpoint_save_mode (st : TrackState) (now : Nat) (force : Bool)
    (specifier : Option (List Char)) :
    (saveCheckpoint st now force specifier).save_mode = st.save_mode := by
  unfold saveCheckpoint
  split
  · rw [chkPruneStep_save_mode, chkWriteStep_save_mode]
  · rfl

theorem removeDatapoints_files (st : TrackState) (start : Nat) (fraction : ℚ) :
    (removeDatapoints st start fraction).files = st.files := by
  rw [removeDatapoints_shape]

theorem removeDatapoints_last_checkpoint (st : TrackState) (start : Nat)
    (fraction : ℚ) :
    (removeDatapoints st start fraction).last_checkpoint = st.last_checkpoint := by
  rw [removeDatapoints_shape]

theorem removeDatapoints_save_mode (st : TrackState) (start : Nat) (fraction : ℚ) :
    (removeDatapoints st start fraction).save_mode = st.save_mode := by
  rw [removeDatapoints_shape]

/-- A `-full`-tagged file survives the trailing (unforced) checkpoint
evaluation that `add_point` runs right after appending, because the
checkpoint time was just set to `now`. -/
theorem mem_full_saveCheckpoint_final {s2 : TrackState} {F : WrittenFile}
    (now : Nat) (sp : Option (List Char)) (hmem : F ∈ s2.files)
    (hfull : endsWithCL F.name "-full.chk.json".toList = true)
    (hlast : s2.last_checkpoint = some now) :
    F ∈ (saveCheckpoint s2 now false sp).files := by
  by_cases hg : s2.save_mode = SaveMode.continuous ∧ s2.checkpoint_interval ≠ none
  · unfold saveCheckpoint
    rw [if_pos hg, chkWriteStep_stale now sp hlast (by omega)]
    exact chkPruneStep_mem_full hmem hfull
  · rw [saveCheckpoint_inactive now false sp hg]
    exact hmem

/-! ## Claim C1: the buffer bound after `add_point` -/

/-- **C1** (amended): for every Track with `max_datapoints ≥ 1` whose
buffer initially satisfies the bound, the buffer length is at most
`max_datapoints + 1` immediately after every successful `add_point`
call of an arbitrary call sequence.  The frozen claim, which does not
restrict `max_datapoints`, fails at `max_datapoints = 0` (see the
counterexample): there the full-buffer trim removes
`int(1 * ((1-1)/1)) = 0` points, so a second `add_point` leaves two
points in a buffer bounded by `0 + 1`. -/
theorem C1_buffer_bound (st : TrackState) (calls : List AddCall)
    (hmax : 1 ≤ st.max_datapoints)
    (hinit : st.data_points.length ≤ st.max_datapoints + 1) :
    ∀ st' ∈ addTrace st calls, st'.data_points.length ≤ st.max_datapoints + 1 := by
  induction calls generalizing st with
  | nil =>
    intro st' h
    simp [addTrace] at h
  | cons c rest ih =>
    intro st' hmem
    cases ha : addPoint st c.now c.ts c.data with
    | error e =>
      simp [addTrace, ha] at hmem
    | ok st₁ =>
      simp only [addTrace, ha, List.mem_cons] at hmem
      have hlen := addPoint_ok_length ha
      have hmax1 := addPoint_ok_max ha
      have hb1 : st₁.data_points.length ≤ st.max_datapoints + 1 := by
        rw [hlen]
        split
        · omega
        · omega
      rcases hmem with rfl | hmem2
      · exact hb1
      · have hrec := ih st₁ (by rw [hmax1]; exact hmax) (by rw [hmax1]; exact hb1)
          st' hmem2
        rwa [hmax1] at hrec

/-- Concrete Track state used by the C1 theorems: the frozen-claim
counterexample configuration has `max_datapoints = 0`. -/
def c1State : TrackState where
  data_points := []
  field_names := some ["a"]
  save_mode := SaveMode.onDemand
  checkpoint_interval := some 120
  max_checkpoint_files := 3
  trim_fraction := 1/2
  max_datapoints := 0
  preprocessors := []
  save_interval_start := none
  last_checkpoint := none
  files := []

/-- Two schema-conforming `add_point` calls. -/
def c1Calls : List AddCall :=
  [⟨1, ⟨2024, 1, 1, 0, 0, 0, 0⟩, [("a", Scalar.num 1)]⟩,
   ⟨2, ⟨2024, 1, 1, 0, 0, 1, 0⟩, [("a", Scalar.num 2)]⟩]

/-- **C1, counterexample to the frozen claim**: with
`max_datapoints = 0` the initial buffer satisfies the bound and both
calls match the configured schema, yet after the second `add_point`
the buffer holds 2 points, exceeding `max_datapoints + 1 = 1`. -/
theorem C1_counterexample :
    c1State.data_points.length ≤ c1State.max_datapoints + 1 ∧
    (addTrace c1State c1Calls).map (fun st => st.data_points.length) = [1, 2] ∧
    ¬(2 ≤ c1State.max_datapoints + 1) := by
  refine ⟨by decide, ?_, by decide⟩
  have h1 : addPoint c1State 1 ⟨2024, 1, 1, 0, 0, 0, 0⟩ [("a", Scalar.num 1)]
      = Except.ok (addPointBody c1State 1 ⟨2024, 1, 1, 0, 0, 0, 0⟩
        [("a", Scalar.num 1)]) := by
    simp [addPoint, c1State]
  have e1 : (addPointBody c1State 1 ⟨2024, 1, 1, 0, 0, 0, 0⟩
      [("a", Scalar.num 1)]).data_points
      = [DataPoint.mk ⟨2024, 1, 1, 0, 0, 0, 0⟩ [("a", Scalar.num 1)]] := by
    rw [addPointBody_data_points]
    simp [c1State]
  have efn := addPointBody_field_names c1State 1 ⟨2024, 1, 1, 0, 0, 0, 0⟩
    [("a", Scalar.num 1)]
  have emax := addPointBody_max_datapoints c1State 1 ⟨2024, 1, 1, 0, 0, 0, 0⟩
    [("a", Scalar.num 1)]
  have eprep := addPointBody_preprocessors c1State 1 ⟨2024, 1, 1, 0, 0, 0, 0⟩
    [("a", Scalar.num 1)]
  have hfn : (addPointBody c1State 1 ⟨2024, 1, 1, 0, 0, 0, 0⟩
      [("a", Scalar.num 1)]).field_names = some ["a"] := by
    rw [efn]
    simp [c1State]
  have h2 : addPoint (addPointBody c1State 1 ⟨2024, 1, 1, 0, 0, 0, 0⟩
        [("a", Scalar.num 1)]) 2 ⟨2024, 1, 1, 0, 0, 1, 0⟩ [("a", Scalar.num 2)]
      = Except.ok (addPointBody (addPointBody c1State 1 ⟨2024, 1, 1, 0, 0, 0, 0⟩
        [("a", Scalar.num 1)]) 2 ⟨2024, 1, 1, 0, 0, 1, 0⟩ [("a", Scalar.num 2)]) := by
    simp [addPoint, hfn]
  have e2 : (addPointBody (addPointBody c1State 1 ⟨2024, 1, 1, 0, 0, 0, 0⟩
        [("a", Scalar.num 1)]) 2 ⟨2024, 1, 1, 0, 0, 1, 0⟩
        [("a", Scalar.num 2)]).data_points
      = [DataPoint.mk ⟨2024, 1, 1, 0, 0, 0, 0⟩ [("a", Scalar.num 1)],
         DataPoint.mk ⟨2024, 1, 1, 0, 0, 1, 0⟩ [("a", Scalar.num 2)]] := by
    rw [addPointBody_data_points, e1, emax, eprep]
    simp [c1State]
  simp only [c1Calls, addTrace, h1, h2]
  simp [e1, e2]

/-- **C1, witness**: the amended theorem applies to a concrete track
with `max_datapoints = 1`. -/
theorem C1_buffer_bound_witness :
    1 ≤ ({ c1State with max_datapoints := 1 } : TrackState).max_datapoints ∧
    ({ c1State with max_datapoints := 1 } : TrackState).data_points.length
      ≤ ({ c1State with max_datapoints := 1 } : TrackState).max_datapoints + 1 ∧
    ∀ st' ∈ addTrace { c1State with max_datapoints := 1 } c1Calls,
      st'.data_points.length
        ≤ ({ c1State with max_datapoints := 1 } : TrackState).max_datapoints + 1 :=
  ⟨by decide, by decide,
    C1_buffer_bound { c1State with max_datapoints := 1 } c1Calls
      (by decide) (by decide)⟩


/-! ## Claim C2: the emergency `-full` checkpoint -/

/-- **C2** (amended): when the buffer exceeds `max_datapoints` and the
track is in `'continuous'` save mode with a configured checkpoint
interval, the next successful `add_point` writes a `-full`-tagged
checkpoint file (with modification time `now`) that is still on disk
when the call returns, trims the buffer to the single trailing sample,
and appends the new sample, leaving exactly two samples.  The frozen
claim asserts the file write happens *regardless of the current
save_mode*; that is refuted by `C2_counterexample`: in any other save
mode `_save_checkpoint` is a no-op, so the buffer is trimmed without
the data being preserved on disk. -/
theorem C2_full_checkpoint (st st' : TrackState) (now : Nat) (ts : Datetime)
    (data : List (String × Scalar)) (iv : Nat)
    (hsm : st.save_mode = SaveMode.continuous)
    (hiv : st.checkpoint_interval = some iv)
    (hfull : st.max_datapoints < st.data_points.length)
    (hok : addPoint st now ts data = Except.ok st') :
    (∃ f ∈ st'.files,
      endsWithCL f.name ("-full.chk.json".toList) = true ∧ f.mtime = now) ∧
    st'.data_points = st.data_points.drop (st.data_points.length - 1)
      ++ [st.preprocessors.foldl (fun d p => p d) (DataPoint.mk ts data)] ∧
    st'.data_points.length = 2 := by
  have hb := addPoint_ok_body hok
  have hguard : st.save_mode = SaveMode.continuous ∧ st.checkpoint_interval ≠ none :=
    ⟨hsm, by rw [hiv]; simp⟩
  have hstc_eq : saveCheckpoint st now true (some ("-full".toList))
      = chkPruneStep (chkWriteStep st now true (some ("-full".toList))) := by
    unfold saveCheckpoint
    rw [if_pos hguard]
  have hconc : ("-full".toList : List Char)
      ++ (".chk".toList ++ (".".toList ++ "json".toList))
      = "-full.chk.json".toList := by decide
  have hdp : st'.data_points = st.data_points.drop (st.data_points.length - 1)
      ++ [st.preprocessors.foldl (fun d p => p d) (DataPoint.mk ts data)] := by
    rw [hb, addPointBody_data_points, if_pos hfull]
  have hlen2 : st'.data_points.length = 2 := by
    rw [hdp]
    simp only [List.length_append, List.length_drop, List.length_cons,
      List.length_nil]
    omega
  have hF : WrittenFile.mk (timeStr now ++ "-full.chk.json".toList) true now
        (applyInterval st.data_points
          (some (st.save_interval_start, (st.data_points.length : Int) - 1)))
      ∈ st'.files := by
    have hFfull : endsWithCL (timeStr now ++ "-full.chk.json".toList)
        "-full.chk.json".toList = true := endsWithCL_append _ _
    have h1 : WrittenFile.mk (timeStr now ++ "-full.chk.json".toList) true now
          (applyInterval st.data_points
            (some (st.save_interval_start, (st.data_points.length : Int) - 1)))
        ∈ (chkWriteStep st now true (some ("-full".toList))).files := by
      rw [chkWriteStep_force, doSave_eq]
      simp only [fsWriteFile]
      apply List.mem_append_right
      simp [List.append_assoc, hconc]
    have h2 : WrittenFile.mk (timeStr now ++ "-full.chk.json".toList) true now
          (applyInterval st.data_points
            (some (st.save_interval_start, (st.data_points.length : Int) - 1)))
        ∈ (saveCheckpoint st now true (some ("-full".toList))).files := by
      rw [hstc_eq]
      exact chkPruneStep_mem_full h1 hFfull
    have hlast : (saveCheckpoint st now true
        (some ("-full".toList))).last_checkpoint = some now := by
      rw [hstc_eq, chkPruneStep_last_checkpoint, chkWriteStep_last_force]
    rw [hb]
    simp only [addPointBody, if_pos hfull]
    apply mem_full_saveCheckpoint_final now none _ hFfull _
    · simp only [removeDatapoints_files]
      exact h2
    · simp only [removeDatapoints_last_checkpoint]
      exact hlast
  exact ⟨⟨_, hF, endsWithCL_append _ _, rfl⟩, hdp, hlen2⟩

/-- Concrete state refuting the "regardless of save_mode" part of C2:
full buffer, `'on-demand'` save mode, no files on disk. -/
def c2State : TrackState where
  data_points := [DataPoint.mk ⟨2024, 1, 1, 0, 0, 0, 0⟩ [("a", Scalar.num 1)],
    DataPoint.mk ⟨2024, 1, 1, 0, 0, 1, 0⟩ [("a", Scalar.num 2)]]
  field_names := none
  save_mode := SaveMode.onDemand
  checkpoint_interval := some 120
  max_checkpoint_files := 3
  trim_fraction := 1/2
  max_datapoints := 1
  preprocessors := []
  save_interval_start := none
  last_checkpoint := none
  files := []

/-- **C2, counterexample to the frozen claim**: in `'on-demand'` save
mode with the buffer over `max_datapoints`, `add_point` returns
normally but writes no checkpoint file at all (the buffer is trimmed
anyway, so the dropped data is not preserved on disk). -/
theorem C2_counterexample :
    c2State.save_mode ≠ SaveMode.continuous ∧
    c2State.max_datapoints < c2State.data_points.length ∧
    addPoint c2State 7 ⟨2024, 1, 1, 0, 0, 2, 0⟩ [("a", Scalar.num 3)]
      = Except.ok (addPointBody c2State 7 ⟨2024, 1, 1, 0, 0, 2, 0⟩
        [("a", Scalar.num 3)]) ∧
    (addPointBody c2State 7 ⟨2024, 1, 1, 0, 0, 2, 0⟩
      [("a", Scalar.num 3)]).files = [] := by
  have hfull : c2State.max_datapoints < c2State.data_points.length := by decide
  have hina : ∀ (s : TrackState) (n : Nat) (f : Bool) (sp : Option (List Char)),
      s.save_mode = SaveMode.onDemand → saveCheckpoint s n f sp = s :=
    fun s n f sp h => saveCheckpoint_inactive n f sp (by rw [h]; simp)
  refine ⟨by decide, hfull, by simp [addPoint, c2State], ?_⟩
  simp only [addPointBody, if_pos hfull]
  rw [hina _ _ _ _
    (by simp [removeDatapoints_save_mode, saveCheckpoint_save_mode, c2State])]
  have hin1 : saveCheckpoint c2State 7 true (some ("-full".toList)) = c2State :=
    hina _ _ _ _ (by rfl)
  rw [hin1]
  simp [removeDatapoints_files, c2State]

/-- The C2 witness state: as `c2State` but in `'continuous'` mode. -/
def c2Wit : TrackState :=
  { c2State with save_mode := SaveMode.continuous }

/-- **C2, witness**: the amended theorem applies to a concrete full
buffer in `'continuous'` mode. -/
theorem C2_full_checkpoint_witness :
    (∃ f ∈ (addPointBody c2Wit 7 ⟨2024, 1, 1, 0, 0, 2, 0⟩
        [("a", Scalar.num 3)]).files,
      endsWithCL f.name ("-full.chk.json".toList) = true ∧ f.mtime = 7) ∧
    (addPointBody c2Wit 7 ⟨2024, 1, 1, 0, 0, 2, 0⟩
        [("a", Scalar.num 3)]).data_points
      = c2Wit.data_points.drop (c2Wit.data_points.length - 1)
        ++ [c2Wit.preprocessors.foldl (fun d p => p d)
          (DataPoint.mk ⟨2024, 1, 1, 0, 0, 2, 0⟩ [("a", Scalar.num 3)])] ∧
    (addPointBody c2Wit 7 ⟨2024, 1, 1, 0, 0, 2, 0⟩
      [("a", Scalar.num 3)]).data_points.length = 2 :=
  C2_full_checkpoint c2Wit _ 7 ⟨2024, 1, 1, 0, 0, 2, 0⟩ [("a", Scalar.num 3)] 120
    (by rfl) (by rfl) (by decide) (by simp [addPoint, c2Wit, c2State])


/-! ## Claim C3: the slice covered by checkpoints and final exports -/

/-- The slice `xs[s : len(xs)-1]` drops the final element: it equals
`[s, len-1)`, not `[s, len)`. -/
theorem getLast?_filter_concat {α : Type} (p : α → Bool) (l : List α) (x : α)
    (hx : p x = true) : (List.filter p (l ++ [x])).getLast? = some x := by
  rw [List.filter_append]
  have hone : List.filter p [x] = [x] := by simp [hx]
  rw [hone, List.getLast?_concat]

theorem pySlice_stop_pred (xs : List DataPoint) (s : Int) (hs : 0 ≤ s) :
    pySlice xs (some s) ((xs.length : Int) - 1)
      = (xs.take (xs.length - 1)).drop s.toNat := by
  simp only [pySlice, pyIdx]
  rw [if_neg (by omega : ¬s < 0)]
  cases xs with
  | nil => simp
  | cons a l =>
    have hstop : ¬(((a :: l).length : Int) - 1 < 0) := by
      simp only [List.length_cons]
      omega
    rw [if_neg hstop]
    have he : (((a :: l).length : Int) - 1).toNat = (a :: l).length - 1 := by
      omega
    rw [he]
    have hmin2 : ((a :: l).length - 1) ⊓ (a :: l).length = (a :: l).length - 1 := by
      omega
    rw [hmin2]
    by_cases hcase : s.toNat ≤ (a :: l).length
    · rw [min_eq_left hcase]
    · have hge : (a :: l).length ≤ s.toNat := by omega
      rw [min_eq_right hge]
      have ht : (List.take ((a :: l).length - 1) (a :: l)).length
          = (a :: l).length - 1 := by
        simp
      rw [List.drop_eq_nil_of_le (by rw [ht]; omega),
        List.drop_eq_nil_of_le (by rw [ht]; omega)]

/-- **C3** (amended): the final export written by `end_run` and a
(here: forced) checkpoint written by the checkpoint policy hand the
exporter exactly the buffer slice `[run_start_index, length - 1)` —
every sample from `run_start_index` up to but *excluding* the
currently-last sample.  The frozen claim says the slice extends
through the last sample (`[run_start_index, length)`); it is refuted
by `C3_counterexample`, because the code builds
`slice(self._save_interval_start, len(self.data_points) - 1)`. -/
theorem C3_export_slice (st : TrackState) (now : Nat) (s : Int)
    (sp : Option (List Char))
    (hs : st.save_interval_start = some s) (h0 : 0 ≤ s)
    (hsm : st.save_mode ≠ SaveMode.onDemand) :
    ((endRun st now).files.getLast?).map (fun f => f.content)
      = some ((st.data_points.take (st.data_points.length - 1)).drop s.toNat) ∧
    ((chkWriteStep st now true sp).files.getLast?).map (fun f => f.content)
      = some ((st.data_points.take (st.data_points.length - 1)).drop s.toNat) := by
  constructor
  · simp only [endRun, if_pos hsm, doSave_eq, fsWriteFile]
    rw [getLast?_filter_concat _ _ _ (by simp)]
    simp only [Option.map_some']
    rw [hs]
    simp only [applyInterval]
    rw [pySlice_stop_pred st.data_points s h0]
  · rw [chkWriteStep_force, doSave_eq]
    simp only [fsWriteFile]
    rw [List.getLast?_concat]
    simp only [Option.map_some']
    rw [hs]
    simp only [applyInterval]
    rw [pySlice_stop_pred st.data_points s h0]

/-- Concrete state for the C3 counterexample and witness: two samples,
`run_start_index = 0`, continuous mode. -/
def c3State : TrackState where
  data_points := [DataPoint.mk ⟨2024, 1, 1, 0, 0, 0, 0⟩ [],
    DataPoint.mk ⟨2024, 1, 1, 0, 0, 1, 0⟩ []]
  field_names := none
  save_mode := SaveMode.continuous
  checkpoint_interval := some 120
  max_checkpoint_files := 3
  trim_fraction := 1/2
  max_datapoints := 100
  preprocessors := []
  save_interval_start := some 0
  last_checkpoint := none
  files := []

/-- **C3, counterexample to the frozen claim**: with two samples in
the buffer and `run_start_index = 0`, the final export written by
`end_run` contains only the first sample — the last sample is not
included, contradicting "up to and including the last sample". -/
theorem C3_counterexample :
    c3State.data_points = [DataPoint.mk ⟨2024, 1, 1, 0, 0, 0, 0⟩ [],
      DataPoint.mk ⟨2024, 1, 1, 0, 0, 1, 0⟩ []] ∧
    ((endRun c3State 5).files.getLast?).map (fun f => f.content)
      = some [DataPoint.mk ⟨2024, 1, 1, 0, 0, 0, 0⟩ []] ∧
    some [DataPoint.mk ⟨2024, 1, 1, 0, 0, 0, 0⟩ []]
      ≠ some [DataPoint.mk ⟨2024, 1, 1, 0, 0, 0, 0⟩ [],
        DataPoint.mk ⟨2024, 1, 1, 0, 0, 1, 0⟩ []] := by
  refine ⟨by decide, by decide, by decide⟩

/-- **C3, witness**: the amended theorem applied to `c3State`. -/
theorem C3_export_slice_witness :
    ((endRun c3State 5).files.getLast?).map (fun f => f.content)
      = some ((c3State.data_points.take (c3State.data_points.length - 1)).drop
          (Int.toNat 0)) ∧
    ((chkWriteStep c3State 5 true none).files.getLast?).map (fun f => f.content)
      = some ((c3State.data_points.take (c3State.data_points.length - 1)).drop
          (Int.toNat 0)) :=
  C3_export_slice c3State 5 0 none (by rfl) (by decide) (by decide)


/-! ## Claim C4: the schema check of `add_point` -/

/-- **C4**: with a configured field schema, `add_point` raises the
schema-mismatch error (`ValueError`) exactly when the key set of the
data differs from the schema's key set; with equal key sets the call
succeeds and the (preprocessed) sample is appended to the buffer. -/
theorem C4_schema_check (st : TrackState) (now : Nat) (ts : Datetime)
    (data : List (String × Scalar)) (fns : List String)
    (hf : st.field_names = some fns) :
    (addPoint st now ts data = Except.error PyErr.valueError
      ↔ fns.toFinset ≠ (data.map Prod.fst).toFinset) ∧
    (fns.toFinset = (data.map Prod.fst).toFinset →
      addPoint st now ts data = Except.ok (addPointBody st now ts data) ∧
      (addPointBody st now ts data).data_points
        = (if st.max_datapoints < st.data_points.length
            then st.data_points.drop (st.data_points.length - 1)
            else st.data_points)
          ++ [st.preprocessors.foldl (fun d p => p d) (DataPoint.mk ts data)]) := by
  refine ⟨⟨?_, ?_⟩, ?_⟩
  · intro h
    by_cases hk : fns.toFinset ≠ (data.map Prod.fst).toFinset
    · exact hk
    · simp only [addPoint, hf, if_neg hk] at h
      exact absurd h (by simp)
  · intro hk
    simp only [addPoint, hf, if_pos hk]
  · intro hk
    refine ⟨?_, addPointBody_data_points st now ts data⟩
    simp only [addPoint, hf]
    rw [if_neg (by simp [hk])]

/-- Concrete state for the C4 witness: schema `{"a","b"}`. -/
def c4State : TrackState where
  data_points := []
  field_names := some ["a", "b"]
  save_mode := SaveMode.onDemand
  checkpoint_interval := some 120
  max_checkpoint_files := 3
  trim_fraction := 1/2
  max_datapoints := 100
  preprocessors := []
  save_interval_start := none
  last_checkpoint := none
  files := []

/-- **C4, witness**: the schema-check theorem instantiated at a
concrete track with schema `{"a","b"}` and data supplied in the other
order. -/
theorem C4_schema_check_witness :
    (addPoint c4State 1 ⟨2024, 1, 1, 0, 0, 0, 0⟩
        [("b", Scalar.num 2), ("a", Scalar.num 1)] = Except.error PyErr.valueError
      ↔ (["a", "b"] : List String).toFinset
        ≠ ([("b", Scalar.num 2), ("a", Scalar.num 1)].map Prod.fst).toFinset) ∧
    ((["a", "b"] : List String).toFinset
        = ([("b", Scalar.num 2), ("a", Scalar.num 1)].map Prod.fst).toFinset →
      addPoint c4State 1 ⟨2024, 1, 1, 0, 0, 0, 0⟩
          [("b", Scalar.num 2), ("a", Scalar.num 1)]
        = Except.ok (addPointBody c4State 1 ⟨2024, 1, 1, 0, 0, 0, 0⟩
          [("b", Scalar.num 2), ("a", Scalar.num 1)]) ∧
      (addPointBody c4State 1 ⟨2024, 1, 1, 0, 0, 0, 0⟩
          [("b", Scalar.num 2), ("a", Scalar.num 1)]).data_points
        = (if c4State.max_datapoints < c4State.data_points.length
            then c4State.data_points.drop (c4State.data_points.length - 1)
            else c4State.data_points)
          ++ [c4State.preprocessors.foldl (fun d p => p d)
            (DataPoint.mk ⟨2024, 1, 1, 0, 0, 0, 0⟩
              [("b", Scalar.num 2), ("a", Scalar.num 1)])]) :=
  C4_schema_check c4State 1 ⟨2024, 1, 1, 0, 0, 0, 0⟩
    [("b", Scalar.num 2), ("a", Scalar.num 1)] ["a", "b"] (by rfl)

/-! ## Claim C5: `Track.save` never propagates an exception -/

theorem pyCatchAll_isOk (st : TrackState) (e : Except PyErr TrackState) :
    ∃ st', pyCatchAll st e = Except.ok st' := by
  cases e with
  | ok st' => exact ⟨st', rfl⟩
  | error _ => exact ⟨st, rfl⟩

/-- **C5**: for every file-format argument (a registered format name,
an unrecognized string, or a caller-supplied callable), every track
state, every slice argument, and every outcome `wr` of the filesystem
write, `Track.save` returns normally: any exception raised inside its
`try` block — exporter errors, write failures, the `TypeError` from
concatenating a callable into the file path, or the
`UnboundLocalError` from an unrecognized format — is caught by
`except Exception` and only logged. -/
theorem C5_save_never_raises (wr : Except PyErr Unit) (st : TrackState)
    (ff : FileFormat) (fname : Option (List Char)) (outChk : Bool)
    (interval : Option (Option Int × Int)) (now : Nat) :
    ∃ st', trackSaveE wr st ff fname outChk interval now = Except.ok st' := by
  simp only [trackSaveE]
  exact pyCatchAll_isOk _ _

/-! ## Claim C10: `get_latest_data` raises on any non-empty buffer -/

/-- **C10**: `Track.get_latest_data` returns successfully (with `[]`)
exactly on an empty buffer; on any non-empty buffer the first loop
iteration evaluates `dp.data`, an attribute the `DataPoint` dataclass
does not define, so the call raises `AttributeError`. -/
theorem C10_get_latest_data (dps : List DataPoint) :
    getLatestData dps
      = if dps = [] then Except.ok [] else Except.error PyErr.attributeError := by
  cases dps with
  | nil => rfl
  | cons d rest =>
    have hne : ¬(d :: rest = ([] : List DataPoint)) := by simp
    rw [getLatestData, if_neg hne, if_neg hne]
    rfl


/-! ## Claim C9: JSON export / load round trip

Model of `export_to_json` (`track.py`, lines 96-120) and `Track.load`
(lines 338-359) at the level of the JSON value written to and read
from the file: `json.dump`/`json.load` preserve the JSON value, so the
file is modelled as a JSON syntax tree.  `json.dump(..., default=str)`
serializes each `datetime` via `str(dt)` — `isoformat` with a `' '`
separator and a 6-digit fractional part exactly when the microsecond
field is nonzero — and `Track.load` re-parses that string with
`datetime.fromisoformat`. -/

/-- A JSON value. -/
inductive Json where
  | str (s : String)
  | num (q : ℚ)
  | bool (b : Bool)
  | null
  | arr (items : List Json)
  | obj (fields : List (String × Json))

/-- Serialization of a scalar field value into JSON (native `json`
module behaviour on number/str/bool/None). -/
def Scalar.toJson : Scalar → Json
  | Scalar.num q => Json.num q
  | Scalar.str s => Json.str s
  | Scalar.bool b => Json.bool b
  | Scalar.null => Json.null

/-- Reading a scalar field value back out of JSON.  `Track.load` keeps
whatever `json.load` produced; the model decodes it into the `Scalar`
type, which covers exactly the values the claim quantifies over. -/
def jsonScalar? : Json → Option Scalar
  | Json.num q => some (Scalar.num q)
  | Json.str s => some (Scalar.str s)
  | Json.bool b => some (Scalar.bool b)
  | Json.null => some Scalar.null
  | _ => none

/-- The decimal digit character for `d < 10`. -/
def digitChar (d : Nat) : Char := Char.ofNat (48 + d)

/-- Fixed-width zero-padded decimal printing of `n % 10 ^ w`, most
significant digit first — the behaviour of `"%0<w>d" % n` for
`n < 10 ^ w`, which is how `datetime.__str__` prints each component. -/
def numChars : Nat → Nat → List Char
  | 0, _ => []
  | w + 1, n => digitChar (n / 10 ^ w % 10) :: numChars w n

/-- Python `str(dt)` for a naive datetime: `isoformat(sep=' ')`, with
the `.ffffff` suffix present exactly when `microsecond != 0`. -/
def pyStrDatetime (d : Datetime) : List Char :=
  numChars 4 d.year ++ [Char.ofNat 45] ++ numChars 2 d.month ++ [Char.ofNat 45]
    ++ numChars 2 d.day ++ [Char.ofNat 32] ++ numChars 2 d.hour ++ [Char.ofNat 58]
    ++ numChars 2 d.minute ++ [Char.ofNat 58] ++ numChars 2 d.second
    ++ (if d.microsecond = 0 then [] else Char.ofNat 46 :: numChars 6 d.microsecond)

/-- Component ranges enforced by the `datetime` constructor (the
day-of-month upper bound is the coarse `31`; every real `datetime`
satisfies these). -/
def Datetime.pyValid (d : Datetime) : Prop :=
  1 ≤ d.year ∧ d.year ≤ 9999 ∧ 1 ≤ d.month ∧ d.month ≤ 12 ∧ 1 ≤ d.day
    ∧ d.day ≤ 31 ∧ d.hour ≤ 23 ∧ d.minute ≤ 59 ∧ d.second ≤ 59
    ∧ d.microsecond ≤ 999999

instance (d : Datetime) : Decidable d.pyValid := by
  unfold Datetime.pyValid
  infer_instance

/-- Read exactly `w` decimal digits, most significant first. -/
def readDigitsAux : Nat → Nat → List Char → Option (Nat × List Char)
  | acc, 0, cs => some (acc, cs)
  | _, _ + 1, [] => none
  | acc, w + 1, c :: cs =>
    if c.isDigit then readDigitsAux (acc * 10 + (c.toNat - 48)) w cs else none

/-- Consume one expected character. -/
def expectChar (c : Char) : List Char → Option (List Char)
  | [] => none
  | c' :: cs => if c' = c then some cs else none

/-- Model of `datetime.fromisoformat` on the grammar CPython accepts:
`YYYY-MM-DD`, any single separator character, `HH:MM:SS`, and an
optional fractional part of exactly 6 or 3 digits; the resulting
components must satisfy the `datetime` constructor ranges. -/
def fromIsoChars (cs : List Char) : Option Datetime := do
  let (y, cs) ← readDigitsAux 0 4 cs
  let cs ← expectChar (Char.ofNat 45) cs
  let (mo, cs) ← readDigitsAux 0 2 cs
  let cs ← expectChar (Char.ofNat 45) cs
  let (da, cs) ← readDigitsAux 0 2 cs
  match cs with
  | [] => none
  | _sep :: cs =>
    (do
      let (h, cs) ← readDigitsAux 0 2 cs
      let cs ← expectChar (Char.ofNat 58) cs
      let (mi, cs) ← readDigitsAux 0 2 cs
      let cs ← expectChar (Char.ofNat 58) cs
      let (se, cs) ← readDigitsAux 0 2 cs
      let dt ← match cs with
        | [] => some (Datetime.mk y mo da h mi se 0)
        | c :: cs2 =>
          if c = Char.ofNat 46 then
            match readDigitsAux 0 6 cs2 with
            | some (us, []) => some (Datetime.mk y mo da h mi se us)
            | _ =>
              match readDigitsAux 0 3 cs2 with
              | some (ms, []) => some (Datetime.mk y mo da h mi se (ms * 1000))
              | _ => none
          else none
      if dt.pyValid then some dt else none)

/-- Serialization of one `DataPoint` by
`json.dump([asdict(dp) ...], default=str)`: the dataclass dictionary
`{"timestamp": ..., "input_data": {...}}` with the datetime rendered
through `str`. -/
def dpToJson (dp : DataPoint) : Json :=
  Json.obj [("timestamp", Json.str (String.mk (pyStrDatetime dp.timestamp))),
    ("input_data", Json.obj (dp.input_data.map (fun kv => (kv.1, kv.2.toJson))))]

/-- Model of `export_to_json` at the JSON level: the value written to
the file.  (The `data_points is None` guard of the source cannot fire:
the model's buffer is always a list.) -/
def exportToJsonAst (dps : List DataPoint)
    (interval : Option (Option Int × Int)) : Json :=
  Json.arr ((applyInterval dps interval).map dpToJson)

/-- Model of the per-element body of `Track.load` (lines 358):
`DataPoint(datetime.fromisoformat(dp["timestamp"]), dp["input_data"])`;
a missing key, a non-string timestamp, an unparsable timestamp or a
non-object field dictionary is a load failure. -/
def loadDataPoint (j : Json) : Option DataPoint :=
  match j with
  | Json.obj fields => do
    let tj ← fields.lookup "timestamp"
    let ts ← match tj with
      | Json.str s => fromIsoChars s.toList
      | _ => none
    let dj ← fields.lookup "input_data"
    let fs ← match dj with
      | Json.obj kvs =>
        kvs.mapM (fun kv => (jsonScalar? kv.2).map (fun sc => (kv.1, sc)))
      | _ => none
    some (DataPoint.mk ts fs)
  | _ => none

/-- Model of `Track.load` on the parsed JSON value: the file must hold
an array of serialized data points. -/
def trackLoadAst (j : Json) : Option (List DataPoint) :=
  match j with
  | Json.arr items => items.mapM loadDataPoint
  | _ => none

theorem digitChar_isDigit {d : Nat} (h : d < 10) : (digitChar d).isDigit = true := by
  interval_cases d <;> decide

theorem digitChar_toNat {d : Nat} (h : d < 10) : (digitChar d).toNat - 48 = d := by
  interval_cases d <;> decide

/-- Reading back exactly the digits that `numChars` printed. -/
theorem readDigitsAux_numChars (w : Nat) :
    ∀ (acc n : Nat) (rest : List Char),
      readDigitsAux acc w (numChars w n ++ rest)
        = some (acc * 10 ^ w + n % 10 ^ w, rest) := by
  induction w with
  | zero =>
    intro acc n rest
    simp [numChars, readDigitsAux, Nat.mod_one]
  | succ w ih =>
    intro acc n rest
    have hd : n / 10 ^ w % 10 < 10 := Nat.mod_lt _ (by norm_num)
    rw [numChars]
    simp only [List.cons_append, readDigitsAux]
    rw [if_pos (digitChar_isDigit hd), digitChar_toNat hd]
    simp only [List.append_eq]
    rw [ih]
    congr 2
    have hsplit : n % (10 ^ w * 10) = n % 10 ^ w + 10 ^ w * (n / 10 ^ w % 10) :=
      Nat.mod_mul
    rw [pow_succ, hsplit]
    ring


set_option maxHeartbeats 1600000 in
/-- Parsing back the string that `str(datetime)` printed yields the
original datetime. -/
theorem fromIso_pyStr (d : Datetime) (h : d.pyValid) :
    fromIsoChars (pyStrDatetime d) = some d := by
  obtain ⟨y, mo, da, ho, mi, se, us⟩ := d
  simp only [Datetime.pyValid] at h
  obtain ⟨h1, h2, h3, h4, h5, h6, h7, h8, h9, h10⟩ := h
  have p4 : (10 : Nat) ^ 4 = 10000 := by norm_num
  have p2 : (10 : Nat) ^ 2 = 100 := by norm_num
  have p6 : (10 : Nat) ^ 6 = 1000000 := by norm_num
  have hy : y % 10 ^ 4 = y := Nat.mod_eq_of_lt (by omega)
  have hmo : mo % 10 ^ 2 = mo := Nat.mod_eq_of_lt (by omega)
  have hda : da % 10 ^ 2 = da := Nat.mod_eq_of_lt (by omega)
  have hho : ho % 10 ^ 2 = ho := Nat.mod_eq_of_lt (by omega)
  have hmi : mi % 10 ^ 2 = mi := Nat.mod_eq_of_lt (by omega)
  have hse : se % 10 ^ 2 = se := Nat.mod_eq_of_lt (by omega)
  have hus : us % 10 ^ 6 = us := Nat.mod_eq_of_lt (by omega)
  have hvalid : (Datetime.mk y mo da ho mi se us).pyValid := by
    simp only [Datetime.pyValid]
    omega
  have hreadse : readDigitsAux 0 2 (numChars 2 se) = some (se, []) := by
    have hx := readDigitsAux_numChars 2 0 se []
    rw [List.append_nil, Nat.zero_mul, Nat.zero_add, hse] at hx
    exact hx
  by_cases hus0 : us = 0
  · subst hus0
    simp only [pyStrDatetime, fromIsoChars, if_pos rfl]
    simp only [List.append_assoc, List.cons_append, List.nil_append,
      List.append_nil, readDigitsAux_numChars, expectChar,
      Option.bind_eq_bind, Option.some_bind, eq_self_iff_true, if_true,
      Nat.zero_mul, Nat.zero_add, hy, hmo, hda, hho, hmi, hse, hreadse]
    rw [if_pos hvalid]
  · have hread6 : readDigitsAux 0 6 (numChars 6 us) = some (us, []) := by
      have hx := readDigitsAux_numChars 6 0 us []
      rw [List.append_nil, Nat.zero_mul, Nat.zero_add, hus] at hx
      exact hx
    simp only [pyStrDatetime, fromIsoChars, if_neg hus0]
    simp only [List.append_assoc, List.cons_append, List.nil_append,
      List.append_nil, readDigitsAux_numChars, expectChar,
      Option.bind_eq_bind, Option.some_bind, eq_self_iff_true, if_true,
      Nat.zero_mul, Nat.zero_add, hy, hmo, hda, hho, hmi, hse, hread6]
    rw [if_pos hvalid]


theorem jsonScalar_toJson (sc : Scalar) : jsonScalar? sc.toJson = some sc := by
  cases sc <;> rfl

theorem mapM_scalar_roundtrip (l : List (String × Scalar)) :
    (l.map (fun kv => (kv.1, kv.2.toJson))).mapM
      (fun kv => (jsonScalar? kv.2).map (fun sc => (kv.1, sc))) = some l := by
  induction l with
  | nil => rfl
  | cons kv rest ih =>
    simp only [List.map_cons, List.mapM_cons, jsonScalar_toJson, Option.map_some',
      Option.bind_eq_bind, Option.some_bind, ih, Prod.mk.eta]
    rfl

/-- Loading back one serialized data point. -/
theorem loadDataPoint_dpToJson (dp : DataPoint) (h : dp.timestamp.pyValid) :
    loadDataPoint (dpToJson dp) = some dp := by
  obtain ⟨ts, fields⟩ := dp
  simp only at h
  simp only [dpToJson, loadDataPoint]
  simp only [List.lookup]
  simp only [show ("timestamp" == "timestamp") = true from rfl,
    show ("input_data" == "timestamp") = false from rfl,
    show ("input_data" == "input_data") = true from rfl]
  simp only [Option.bind_eq_bind, Option.some_bind, String.toList]
  rw [fromIso_pyStr ts h]
  simp only [Option.bind_eq_bind, Option.some_bind, mapM_scalar_roundtrip]

theorem mapM_load (dps : List DataPoint)
    (hval : ∀ dp ∈ dps, dp.timestamp.pyValid) :
    (dps.map dpToJson).mapM loadDataPoint = some dps := by
  induction dps with
  | nil => rfl
  | cons dp rest ih =>
    have h1 : dp.timestamp.pyValid := hval dp (by simp)
    have h2 : ∀ p ∈ rest, p.timestamp.pyValid := fun p hp => hval p (by simp [hp])
    simp only [List.map_cons, List.mapM_cons, loadDataPoint_dpToJson dp h1,
      Option.bind_eq_bind, Option.some_bind, ih h2]
    rfl

/-- **C9**: exporting a non-empty list of samples with scalar field
values through the structured-dump (JSON) exporter and loading the
resulting file with `Track.load` yields the identical ordered sample
sequence — same length, same timestamps, same field maps. -/
theorem C9_json_roundtrip (dps : List DataPoint) (_hne : dps ≠ [])
    (hval : ∀ dp ∈ dps, dp.timestamp.pyValid) :
    trackLoadAst (exportToJsonAst dps none) = some dps := by
  simp only [exportToJsonAst, applyInterval, trackLoadAst]
  exact mapM_load dps hval

/-- **C9, witness**: the round trip on a concrete one-sample track,
with and without microseconds in the timestamp. -/
theorem C9_json_roundtrip_witness :
    trackLoadAst (exportToJsonAst
        [DataPoint.mk ⟨2024, 5, 6, 7, 8, 9, 0⟩ [("a", Scalar.bool true)],
         DataPoint.mk ⟨2024, 12, 31, 23, 59, 58, 123456⟩
           [("u/lat", Scalar.str "x"), ("u/lon", Scalar.null)]] none)
      = some [DataPoint.mk ⟨2024, 5, 6, 7, 8, 9, 0⟩ [("a", Scalar.bool true)],
         DataPoint.mk ⟨2024, 12, 31, 23, 59, 58, 123456⟩
           [("u/lat", Scalar.str "x"), ("u/lon", Scalar.null)]] :=
  C9_json_roundtrip _ (by decide) (by decide)


/-! ## The metadata index (`src/mothics/database.py`)

The filesystem is modelled as the two scanned directories; file
content is an abstract type `C`, and `validate_json` /
`MetadataExtractor.extract_all` are abstract deterministic functions
of the content (`valid : C → Bool`, `extract : C → M`), which is all
the synchronization logic observes.  File names are `List Char` as in
the recorder model; modification times are `Nat`. -/

/-- A file on disk, as seen by the index. -/
structure FsFile (C : Type) where
  name : List Char
  mtime : Nat
  content : C
deriving DecidableEq

/-- The filesystem state scanned by `Database`: the primary track
directory and the `chk` subdirectory, plus the name of the TinyDB
store file (excluded from the scan) and whether the `chk` directory
exists. -/
structure FS (C : Type) where
  primary : List (FsFile C)
  chk : List (FsFile C)
  dbFname : List Char
  chkExists : Bool
deriving DecidableEq

/-- One TinyDB record of track metadata, as read and written by
`load_tracks_incrementally`: `exports := none` models a record without
an `"exports"` key. -/
structure DbRec (M : Type) where
  filename : List Char
  mtime : Nat
  checkpoint : Bool
  meta : M
  exports : Option (List (List Char))
deriving DecidableEq

/-- A store mutation performed by a sync pass. -/
inductive DbOp where
  | removeRec (filename : List Char)
  | insertRec (filename : List Char)
  | updateRec (filename : List Char)
deriving DecidableEq

/-- Python dict assignment `d[k] = v` on an insertion-ordered map:
overwrite in place, else append. -/
def dictUpsertNat (d : List (List Char × Nat)) (k : List Char) (v : Nat) :
    List (List Char × Nat) :=
  if d.any (fun kv => kv.1 = k) then
    d.map (fun kv => if kv.1 = k then (kv.1, v) else kv)
  else d ++ [(k, v)]

/-- The `found_files` dictionary (`database.py`, lines 343-353):
`*.json` files of the primary directory except the store file, then
`*.chk.json` files of the checkpoint directory (overwriting the
recorded mtime on a name collision). -/
def foundFiles {C : Type} (fs : FS C) : List (List Char × Nat) :=
  let prim := fs.primary.filter (fun f =>
    endsWithCL f.name ".json".toList && !(f.name = fs.dbFname : Bool))
  let base := prim.foldl (fun acc f => dictUpsertNat acc f.name f.mtime) []
  if fs.chkExists then
    (fs.chk.filter (fun f => endsWithCL f.name ".chk.json".toList)).foldl
      (fun acc f => dictUpsertNat acc f.name f.mtime) base
  else base

/-- The value `existing_tracks.get(fname)` of the snapshot dictionary
built from `self.db.all()`: the last record with that filename. -/
def lastRec {M : Type} (db : List (DbRec M)) (fname : List Char) :
    Option (DbRec M) :=
  (db.filter (fun r => r.filename = fname)).getLast?

/-- `pathlib.Path.stem`: the file name with its last suffix removed. -/
def stemCL (name : List Char) : List Char :=
  if name.contains (Char.ofNat 46) then
    (((name.reverse).dropWhile (fun c => !(c = Char.ofNat 46 : Bool))).drop 1).reverse
  else name

/-- `defaultdict(list)` append `d[k].append(v)`. -/
def dictAppendExp (d : List (List Char × List (List Char))) (k : List Char)
    (v : List Char) : List (List Char × List (List Char)) :=
  if d.any (fun kv => kv.1 = k) then
    d.map (fun kv => if kv.1 = k then (kv.1, kv.2 ++ [v]) else kv)
  else d ++ [(k, [v])]

/-- Lookup in the `existing_exports` dictionary. -/
def dictGetExp (d : List (List Char × List (List Char))) (k : List Char) :
    Option (List (List Char)) :=
  (d.find? (fun kv => kv.1 = k)).map (fun kv => kv.2)

/-- The `existing_exports` map (`database.py`, lines 365-372): for
each registered export extension, every matching file of the primary
directory is recorded under its stem. -/
def existingExports {C : Type} (fs : FS C) :
    List (List Char × List (List Char)) :=
  ["json".toList, "csv".toList, "gpx".toList].foldl (fun d ext =>
    (fs.primary.filter (fun f =>
        endsWithCL f.name (Char.ofNat 46 :: ext))).foldl
      (fun d f => dictAppendExp d (stemCL f.name) ext) d) []

/-- Python `str.replace(pat, rep)`: replace every non-overlapping
occurrence, scanning left to right (used with a nonempty pattern). -/
def replaceAllCL (s pat rep : List Char) : List Char :=
  match s with
  | [] => []
  | c :: rest =>
    if h : pat ≠ [] ∧ pat.isPrefixOf (c :: rest) then
      rep ++ replaceAllCL ((c :: rest).drop pat.length) pat rep
    else c :: replaceAllCL rest pat rep
termination_by s.length
decreasing_by
  · simp only [List.length_drop, List.length_cons]
    have hpat : 1 ≤ pat.length := by
      cases hp : pat with
      | nil => exact absurd hp h.1
      | cons a l => simp
    omega
  · simp

/-- The `base_name` used for export attachment (`database.py`, line
394): `fname.replace(".chk.json", "").replace(".json", "")`. -/
def baseNameCL (fname : List Char) : List Char :=
  replaceAllCL (replaceAllCL fname ".chk.json".toList []) ".json".toList []

/-- Resolve the path that `load_tracks_incrementally` opens for a
found file name (`database.py`, lines 380-384): names ending in
`.chk.json` are looked up in the checkpoint directory, everything
else in the primary directory.  `none` means the resolved path does
not exist on disk, in which case `validate_json`'s `open` raises
`FileNotFoundError` and the pass aborts. -/
def resolveFile {C : Type} (fs : FS C) (fname : List Char) : Option (FsFile C) :=
  if endsWithCL fname ".chk.json".toList then
    fs.chk.find? (fun f => f.name = fname)
  else
    fs.primary.find? (fun f => f.name = fname)

/-- The record assembled for a (re)validated file (`database.py`,
lines 386-396). -/
def mkMeta {C M : Type} (extract : C → M)
    (exps : List (List Char × List (List Char))) (fname : List Char)
    (mtime : Nat) (content : C) : DbRec M :=
  { filename := fname
    mtime := mtime
    checkpoint := endsWithCL fname ".chk.json".toList
    meta := extract content
    exports := dictGetExp exps (baseNameCL fname) }

/-- Processing of one dirty (new or modified) found file
(`database.py`, lines 379-403): resolve, validate, extract, then
`db.update` (a TinyDB update merges the given fields into every
matching record, so a record keeps its old `exports` when the new
metadata has none) or `db.insert`. -/
def processDirty {C M : Type} (fs : FS C) (valid : C → Bool)
    (validation : Bool) (extract : C → M)
    (exps : List (List Char × List (List Char))) (db : List (DbRec M))
    (fname : List Char) (mtime : Nat) (existed : Bool) :
    Option (List (DbRec M) × List DbOp) :=
  match resolveFile fs fname with
  | none => none
  | some file =>
    if valid file.content || !validation then
      let meta := mkMeta extract exps fname mtime file.content
      if existed then
        some (db.map (fun r => if r.filename = fname then
          { meta with exports := (match meta.exports with
            | some e => some e
            | none => r.exports) } else r),
          [DbOp.updateRec fname])
      else
        some (db ++ [meta], [DbOp.insertRec fname])
    else some (db, [])

/-- Processing of one found file: skip when the snapshot holds a
record with an unchanged mtime, else treat as dirty. -/
def processOne {C M : Type} (fs : FS C) (valid : C → Bool)
    (validation : Bool) (extract : C → M)
    (exps : List (List Char × List (List Char))) (snap : List (DbRec M))
    (db : List (DbRec M)) (fname : List Char) (mtime : Nat) :
    Option (List (DbRec M) × List DbOp) :=
  match lastRec snap fname with
  | some r =>
    if r.mtime = mtime then some (db, [])
    else processDirty fs valid validation extract exps db fname mtime true
  | none => processDirty fs valid validation extract exps db fname mtime false

/-- The dirty-detection loop over `found_files`; a crash
(`FileNotFoundError` from a missing resolved path) aborts the pass,
leaving the store mutations performed so far. -/
def runFound {C M : Type} (fs : FS C) (valid : C → Bool) (validation : Bool)
    (extract : C → M) (exps : List (List Char × List (List Char)))
    (snap : List (DbRec M)) :
    List (List Char × Nat) → List (DbRec M)
    → List (DbRec M) × List DbOp × Bool
  | [], db => (db, [], false)
  | (fname, mtime) :: rest, db =>
    match processOne fs valid validation extract exps snap db fname mtime with
    | none => (db, [], true)
    | some (db1, ops1) =>
      let r := runFound fs valid validation extract exps snap rest db1
      (r.1, ops1 ++ r.2.1, r.2.2)

/-- First-occurrence deduplication: the key order of a Python dict
built by iterating a list. -/
def dedupFirst (l : List (List Char)) : List (List Char) :=
  l.foldl (fun acc n => if acc.contains n then acc else acc ++ [n]) []

/-- Model of `Database.load_tracks_incrementally` (`database.py`,
lines 334-406): snapshot the store, delete records whose files are
gone, rebuild the export map, then upsert dirty files.  Returns the
new store contents, the list of store mutations performed, and
whether the pass aborted with an exception. -/
def syncInc {C M : Type} (fs : FS C) (valid : C → Bool) (validation : Bool)
    (extract : C → M) (db : List (DbRec M)) :
    List (DbRec M) × List DbOp × Bool :=
  let found := foundFiles fs
  let foundNames := found.map Prod.fst
  let removeNames := (dedupFirst (db.map (fun r => r.filename))).filter
    (fun n => !(foundNames.contains n))
  let db0 := db.filter (fun r => foundNames.contains r.filename)
  let r := runFound fs valid validation extract (existingExports fs) db found db0
  (r.1, removeNames.map DbOp.removeRec ++ r.2.1, r.2.2)


/-! ## Claim C8: `Database.remove_track` -/

/-- A track identifier: a positional index into `db.all()` or a
filename. -/
inductive TrackId where
  | idx (i : Nat)
  | name (s : List Char)

/-- Model of `Database.get_track_path` (`database.py`, lines
513-557): resolve the record by index or filename, then prefer the
checkpoint directory for checkpoint records, fall back to the primary
directory, and return `none` when the file is on neither path. -/
def getTrackPath {C M : Type} (db : List (DbRec M)) (fs : FS C)
    (tid : TrackId) : Option (Bool × List Char) :=
  let track? : Option (DbRec M) := match tid with
    | TrackId.idx i => db[i]?
    | TrackId.name s => db.find? (fun t => t.filename = s)
  match track? with
  | none => none
  | some t =>
    if t.checkpoint ∧ fs.chk.any (fun f => f.name = t.filename) then
      some (true, t.filename)
    else if fs.primary.any (fun f => f.name = t.filename) then
      some (false, t.filename)
    else none

/-- Delete a file from the modelled filesystem. -/
def removeFileFS {C : Type} (fs : FS C) (inChk : Bool) (fname : List Char) :
    FS C :=
  if inChk then
    { fs with chk := fs.chk.filter (fun f => !(f.name = fname : Bool)) }
  else
    { fs with primary := fs.primary.filter (fun f => !(f.name = fname : Bool)) }

/-- Model of `Database.remove_track` (`database.py`, lines 633-672).
`diskRemoveFails` is the outcome of `os.remove`.  The `except` clause
of the source is `except [Exception, OSError]`, which is not a valid
exception specification: when `os.remove` raises, matching the raised
exception against a *list* raises
`TypeError: catching classes that do not inherit from BaseException is
not allowed`, which propagates to the caller; the handler body — the
`logger.critical` call and the `RuntimeError` promised by the
docstring — never executes.  The store removal performed before the
disk deletion persists. -/
def removeTrack {C M : Type} (db : List (DbRec M)) (fs : FS C) (tid : TrackId)
    (deleteFromDisk : Bool) (diskRemoveFails : Bool) :
    Option PyErr × List (DbRec M) × FS C :=
  match getTrackPath db fs tid with
  | none => (some PyErr.runtimeError, db, fs)
  | some (inChk, fname) =>
    let db1 := db.filter (fun r => !(r.filename = fname : Bool))
    let removalCount := db.length - db1.length
    if removalCount = 0 then (some PyErr.runtimeError, db1, fs)
    else if deleteFromDisk then
      if diskRemoveFails then (some PyErr.typeError, db1, fs)
      else (none, db1, removeFileFS fs inChk fname)
    else (none, db1, fs)

/-- Concrete store and filesystem for the C8 failing input: one track
record whose backing file exists. -/
def c8Db : List (DbRec Unit) :=
  [DbRec.mk "a.json".toList 5 false () none]

/-- See `c8Db`. -/
def c8Fs : FS Unit :=
  FS.mk [FsFile.mk "a.json".toList 5 ()] [] "tracks_metadata.json".toList true

/-- **C8**: behaviour of `remove_track` at the failing input — a
resolvable track, `delete_from_disk = True`, and a failing
`os.remove`.  The call surfaces `TypeError` (raised by the invalid
`except [Exception, OSError]` clause) instead of the logged
`RuntimeError` the docstring documents, while the index record has
already been removed and the file is still on disk; resolution
failures and zero-record removals do raise `RuntimeError` as claimed
(first conjunct, shown on the empty store). -/
theorem C8_remove_track_eval :
    removeTrack ([] : List (DbRec Unit)) c8Fs (TrackId.idx 0) true true
      = (some PyErr.runtimeError, [], c8Fs) ∧
    removeTrack c8Db c8Fs (TrackId.idx 0) true true
      = (some PyErr.typeError, [], c8Fs) ∧
    removeTrack c8Db c8Fs (TrackId.idx 0) true true ≠
      (some PyErr.runtimeError, [], c8Fs) ∧
    removeTrack c8Db c8Fs (TrackId.idx 0) true false
      = (none, [],
        FS.mk [] [] "tracks_metadata.json".toList true) := by decide


/-! ## Supporting lemmas for the sync-pass theorems -/

theorem filter_map_comm {α : Type} (l : List α) (h : α → α) (p : α → Bool)
    (hp : ∀ a, p (h a) = p a) : (l.map h).filter p = (l.filter p).map h := by
  induction l with
  | nil => rfl
  | cons a t ih =>
    simp only [List.map_cons, List.filter_cons, hp a]
    cases hpa : p a
    · simp [ih]
    · simp [ih]

theorem map_id_on {α : Type} (l : List α) (h : α → α)
    (hid : ∀ a ∈ l, h a = a) : l.map h = l := by
  induction l with
  | nil => rfl
  | cons a t ih =>
    simp only [List.map_cons, hid a (by simp)]
    rw [ih (fun a ha => hid a (by simp [ha]))]

theorem map_eq_on {α β : Type} (l : List α) (f g : α → β)
    (h : ∀ a ∈ l, f a = g a) : l.map f = l.map g := by
  induction l with
  | nil => rfl
  | cons a t ih =>
    simp only [List.map_cons, h a (by simp)]
    rw [ih (fun a ha => h a (by simp [ha]))]

/-- Effect of the dirty-update map on the dictionary view of the
store: the last record with the updated filename is the merged one. -/
theorem lastRec_map_update {M : Type} (db : List (DbRec M)) (fname : List Char)
    (meta : DbRec M) (hmf : meta.filename = fname) :
    lastRec (db.map (fun r => if r.filename = fname then
        { meta with exports := (match meta.exports with
          | some e => some e
          | none => r.exports) } else r)) fname
      = (lastRec db fname).map (fun r =>
          { meta with exports := (match meta.exports with
            | some e => some e
            | none => r.exports) }) := by
  unfold lastRec
  rw [filter_map_comm db _ _ ?hp]
  case hp =>
    intro a
    by_cases ha : a.filename = fname
    · simp [ha, hmf]
    · simp [ha]
  rw [map_eq_on (db.filter fun r => r.filename = fname) _
    (fun r => { meta with exports := (match meta.exports with
      | some e => some e
      | none => r.exports) }) ?hmem]
  case hmem =>
    intro a ha
    have : a.filename = fname := by
      have hm := List.mem_filter.mp ha
      simpa using hm.2
    simp [this]
  rw [← List.getLast?_map]


theorem processDirty_filter_ne {C M : Type} {fs : FS C} {valid : C → Bool}
    {validation : Bool} {extract : C → M}
    {exps : List (List Char × List (List Char))} {db db1 : List (DbRec M)}
    {fname : List Char} {mtime : Nat} {existed : Bool} {ops : List DbOp}
    (g : List Char) (hg : ¬(g = fname))
    (hres : processDirty fs valid validation extract exps db fname mtime existed
      = some (db1, ops)) :
    db1.filter (fun r => r.filename = g) = db.filter (fun r => r.filename = g) := by
  unfold processDirty at hres
  cases hr : resolveFile fs fname with
  | none =>
    rw [hr] at hres
    exact absurd hres (by simp)
  | some file =>
    rw [hr] at hres
    dsimp only at hres
    by_cases hv : (valid file.content || !validation) = true
    · rw [if_pos hv] at hres
      cases existed with
      | true =>
        rw [if_pos rfl] at hres
        simp only [Option.some.injEq, Prod.mk.injEq] at hres
        obtain ⟨hdb, _⟩ := hres
        rw [← hdb]
        rw [filter_map_comm db _ _ ?hp]
        case hp =>
          have hgf : ¬fname = g := fun hq => hg hq.symm
          intro a
          by_cases ha : a.filename = fname
          · simp only [if_pos ha]
            simp [mkMeta, ha, hgf]
          · simp [ha]
        apply map_id_on
        intro a ha
        have hag : a.filename = g := by
          have hm := List.mem_filter.mp ha
          simpa using hm.2
        rw [if_neg (by rw [hag]; exact hg)]
      | false =>
        rw [if_neg (show ¬(false = true) by simp)] at hres
        simp only [Option.some.injEq, Prod.mk.injEq] at hres
        obtain ⟨hdb, _⟩ := hres
        rw [← hdb, List.filter_append]
        have hnil : List.filter (fun r => r.filename = g)
            [mkMeta extract exps fname mtime file.content] = [] := by
          have hgf : ¬fname = g := fun hq => hg hq.symm
          simp [mkMeta, hgf]
        rw [hnil, List.append_nil]
    · rw [if_neg hv] at hres
      simp only [Option.some.injEq, Prod.mk.injEq] at hres
      rw [← hres.1]

theorem processOne_filter_ne {C M : Type} {fs : FS C} {valid : C → Bool}
    {validation : Bool} {extract : C → M}
    {exps : List (List Char × List (List Char))} {snap db db1 : List (DbRec M)}
    {fname : List Char} {mtime : Nat} {ops : List DbOp}
    (g : List Char) (hg : ¬(g = fname))
    (hres : processOne fs valid validation extract exps snap db fname mtime
      = some (db1, ops)) :
    db1.filter (fun r => r.filename = g) = db.filter (fun r => r.filename = g) := by
  unfold processOne at hres
  cases hl : lastRec snap fname with
  | none =>
    rw [hl] at hres
    exact processDirty_filter_ne g hg hres
  | some r =>
    rw [hl] at hres
    dsimp only at hres
    by_cases hm : r.mtime = mtime
    · rw [if_pos hm] at hres
      simp only [Option.some.injEq, Prod.mk.injEq] at hres
      rw [← hres.1]
    · rw [if_neg hm] at hres
      exact processDirty_filter_ne g hg hres

theorem runFound_filter_ne {C M : Type} {fs : FS C} {valid : C → Bool}
    {validation : Bool} {extract : C → M}
    {exps : List (List Char × List (List Char))} {snap : List (DbRec M)}
    (g : List Char) :
    ∀ (L : List (List Char × Nat)) (db : List (DbRec M)),
      (∀ fm ∈ L, ¬(g = fm.1)) →
      ((runFound fs valid validation extract exps snap L db).1).filter
          (fun r => r.filename = g)
        = db.filter (fun r => r.filename = g) := by
  intro L
  induction L with
  | nil =>
    intro db _
    rfl
  | cons fm rest ih =>
    intro db hg
    obtain ⟨fname, mtime⟩ := fm
    rw [runFound]
    cases hp : processOne fs valid validation extract exps snap db fname mtime with
    | none => rfl
    | some pr =>
      obtain ⟨db1, ops1⟩ := pr
      simp only
      rw [ih db1 (fun fm hfm => hg fm (by simp [hfm]))]
      exact processOne_filter_ne g (hg (fname, mtime) (by simp)) hp


theorem processDirty_none {C M : Type} {fs : FS C} {valid : C → Bool}
    {validation : Bool} {extract : C → M}
    {exps : List (List Char × List (List Char))} {db : List (DbRec M)}
    {fname : List Char} {mtime : Nat} {existed : Bool}
    (hres : processDirty fs valid validation extract exps db fname mtime existed
      = none) :
    resolveFile fs fname = none := by
  unfold processDirty at hres
  cases hr : resolveFile fs fname with
  | none => rfl
  | some file =>
    rw [hr] at hres
    dsimp only at hres
    by_cases hv : (valid file.content || !validation) = true
    · rw [if_pos hv] at hres
      cases existed with
      | true =>
        rw [if_pos rfl] at hres
        simp at hres
      | false =>
        rw [if_neg (show ¬(false = true) by simp)] at hres
        simp at hres
    · rw [if_neg hv] at hres
      simp at hres

theorem processDirty_none_of_resolve {C M : Type} {fs : FS C} {valid : C → Bool}
    {validation : Bool} {extract : C → M}
    {exps : List (List Char × List (List Char))} {db : List (DbRec M)}
    {fname : List Char} {mtime : Nat} {existed : Bool}
    (hr : resolveFile fs fname = none) :
    processDirty fs valid validation extract exps db fname mtime existed
      = none := by
  unfold processDirty
  rw [hr]

theorem processOne_none {C M : Type} {fs : FS C} {valid : C → Bool}
    {validation : Bool} {extract : C → M}
    {exps : List (List Char × List (List Char))} {snap db : List (DbRec M)}
    {fname : List Char} {mtime : Nat}
    (hres : processOne fs valid validation extract exps snap db fname mtime
      = none) :
    resolveFile fs fname = none
    ∧ (∀ r, lastRec snap fname = some r → ¬(r.mtime = mtime)) := by
  unfold processOne at hres
  cases hl : lastRec snap fname with
  | none =>
    rw [hl] at hres
    dsimp only at hres
    exact ⟨processDirty_none hres, by simp⟩
  | some r =>
    rw [hl] at hres
    dsimp only at hres
    by_cases hm : r.mtime = mtime
    · rw [if_pos hm] at hres
      simp at hres
    · rw [if_neg hm] at hres
      refine ⟨processDirty_none hres, ?_⟩
      intro r' hr'
      simp only [Option.some.injEq] at hr'
      rw [← hr']
      exact hm

theorem processDirty_lastRec {C M : Type} {fs : FS C} {valid : C → Bool}
    {validation : Bool} {extract : C → M}
    {exps : List (List Char × List (List Char))} {db db1 : List (DbRec M)}
    {fname : List Char} {mtime : Nat} {existed : Bool} {ops : List DbOp}
    (hres : processDirty fs valid validation extract exps db fname mtime existed
      = some (db1, ops))
    (hex : existed = true → ¬(lastRec db fname = none)) :
    (∃ r, lastRec db1 fname = some r ∧ r.mtime = mtime)
    ∨ (db1 = db ∧ ops = [] ∧ ∃ file, resolveFile fs fname = some file
        ∧ (valid file.content || !validation) = false) := by
  unfold processDirty at hres
  cases hr : resolveFile fs fname with
  | none =>
    rw [hr] at hres
    exact absurd hres (by simp)
  | some file =>
    rw [hr] at hres
    dsimp only at hres
    by_cases hv : (valid file.content || !validation) = true
    · rw [if_pos hv] at hres
      left
      cases existed with
      | true =>
        rw [if_pos rfl] at hres
        simp only [Option.some.injEq, Prod.mk.injEq] at hres
        obtain ⟨hdb, _⟩ := hres
        rw [← hdb]
        rw [lastRec_map_update db fname
          (mkMeta extract exps fname mtime file.content) rfl]
        cases hl : lastRec db fname with
        | none => exact absurd hl (hex rfl)
        | some r0 =>
          refine ⟨_, rfl, ?_⟩
          simp [mkMeta]
      | false =>
        rw [if_neg (show ¬(false = true) by simp)] at hres
        simp only [Option.some.injEq, Prod.mk.injEq] at hres
        obtain ⟨hdb, _⟩ := hres
        rw [← hdb]
        unfold lastRec
        rw [List.filter_append]
        have hone : List.filter (fun r => r.filename = fname)
            [mkMeta extract exps fname mtime file.content]
            = [mkMeta extract exps fname mtime file.content] := by
          simp [mkMeta]
        rw [hone, List.getLast?_concat]
        exact ⟨_, rfl, rfl⟩
    · rw [if_neg hv] at hres
      simp only [Option.some.injEq, Prod.mk.injEq] at hres
      right
      exact ⟨hres.1.symm, hres.2.symm, file, rfl,
        by simpa using hv⟩

theorem processOne_post {C M : Type} {fs : FS C} {valid : C → Bool}
    {validation : Bool} {extract : C → M}
    {exps : List (List Char × List (List Char))} {snap db db1 : List (DbRec M)}
    {fname : List Char} {mtime : Nat} {ops : List DbOp}
    (hres : processOne fs valid validation extract exps snap db fname mtime
      = some (db1, ops))
    (hsnap : lastRec snap fname = lastRec db fname) :
    (db1 = db ∧ ops = [] ∧ ∃ r, lastRec db fname = some r ∧ r.mtime = mtime)
    ∨ (∃ r, lastRec db1 fname = some r ∧ r.mtime = mtime)
    ∨ (db1 = db ∧ ops = []
        ∧ (∃ file, resolveFile fs fname = some file
            ∧ (valid file.content || !validation) = false)
        ∧ (∀ r, lastRec db fname = some r → ¬(r.mtime = mtime))) := by
  unfold processOne at hres
  cases hl : lastRec snap fname with
  | none =>
    rw [hl] at hres
    dsimp only at hres
    rcases processDirty_lastRec hres (by simp) with h | h
    · exact Or.inr (Or.inl h)
    · refine Or.inr (Or.inr ⟨h.1, h.2.1, h.2.2, ?_⟩)
      intro r hr
      rw [← hsnap, hl] at hr
      exact absurd hr (by simp)
  | some r =>
    rw [hl] at hres
    dsimp only at hres
    have hdbr : lastRec db fname = some r := by rw [← hsnap, hl]
    by_cases hm : r.mtime = mtime
    · rw [if_pos hm] at hres
      simp only [Option.some.injEq, Prod.mk.injEq] at hres
      exact Or.inl ⟨hres.1.symm, hres.2.symm, r, hdbr, hm⟩
    · rw [if_neg hm] at hres
      rcases processDirty_lastRec hres (fun _ => by rw [hdbr]; simp) with h | h
      · exact Or.inr (Or.inl h)
      · refine Or.inr (Or.inr ⟨h.1, h.2.1, h.2.2, ?_⟩)
        intro r' hr'
        rw [hdbr] at hr'
        simp only [Option.some.injEq] at hr'
        rw [← hr']
        exact hm

theorem processOne_noop {C M : Type} {fs : FS C} {valid : C → Bool}
    {validation : Bool} {extract : C → M}
    {exps : List (List Char × List (List Char))} {snap2 db : List (DbRec M)}
    {fname : List Char} {mtime : Nat}
    (hsnap2 : lastRec snap2 fname = lastRec db fname)
    (hgood : (∃ r, lastRec db fname = some r ∧ r.mtime = mtime)
      ∨ ((∃ file, resolveFile fs fname = some file
            ∧ (valid file.content || !validation) = false)
          ∧ (∀ r, lastRec db fname = some r → ¬(r.mtime = mtime)))) :
    processOne fs valid validation extract exps snap2 db fname mtime
      = some (db, []) := by
  unfold processOne
  rw [hsnap2]
  rcases hgood with ⟨r, hr, hm⟩ | ⟨⟨file, hfile, hv⟩, hdirty⟩
  · rw [hr]
    dsimp only
    rw [if_pos hm]
  · have hproc : processDirty fs valid validation extract exps db fname mtime true
        = some (db, []) ∧
        processDirty fs valid validation extract exps db fname mtime false
        = some (db, []) := by
      constructor <;>
      · unfold processDirty
        rw [hfile]
        dsimp only
        rw [if_neg (by simp [hv])]
    cases hl : lastRec db fname with
    | none =>
      dsimp only
      exact hproc.2
    | some r =>
      dsimp only
      rw [if_neg (hdirty r hl)]
      exact hproc.1


theorem runFound_lastRec_ne {C M : Type} {fs : FS C} {valid : C → Bool}
    {validation : Bool} {extract : C → M}
    {exps : List (List Char × List (List Char))} {snap : List (DbRec M)}
    (g : List Char) (L : List (List Char × Nat)) (db : List (DbRec M))
    (hg : ∀ fm ∈ L, ¬(g = fm.1)) :
    lastRec (runFound fs valid validation extract exps snap L db).1 g
      = lastRec db g := by
  unfold lastRec
  rw [runFound_filter_ne g L db hg]

/-- Core idempotence: re-running the dirty-detection loop over the
same found files, against a snapshot that reflects the loop's own
output, performs no store mutation. -/
theorem runFound_idem {C M : Type} {fs : FS C} {valid : C → Bool}
    {validation : Bool} {extract : C → M}
    {exps : List (List Char × List (List Char))}
    (snap1 snap2 : List (DbRec M)) :
    ∀ (L : List (List Char × Nat)), (L.map Prod.fst).Nodup →
    ∀ (dbA : List (DbRec M)),
      (∀ fm ∈ L, lastRec snap1 fm.1 = lastRec dbA fm.1) →
      (∀ fm ∈ L, lastRec snap2 fm.1
          = lastRec (runFound fs valid validation extract exps snap1 L dbA).1
              fm.1) →
      (runFound fs valid validation extract exps snap2 L
          (runFound fs valid validation extract exps snap1 L dbA).1).1
        = (runFound fs valid validation extract exps snap1 L dbA).1
      ∧ (runFound fs valid validation extract exps snap2 L
          (runFound fs valid validation extract exps snap1 L dbA).1).2.1
        = [] := by
  intro L
  induction L with
  | nil =>
    intro _ dbA _ _
    exact ⟨rfl, rfl⟩
  | cons fm rest ih =>
    intro hnodup dbA hs1 hs2
    obtain ⟨f, m⟩ := fm
    have hnd := hnodup
    rw [List.map_cons, List.nodup_cons] at hnd
    obtain ⟨hfnot, hndrest⟩ := hnd
    have hne : ∀ gm ∈ rest, ¬(f = gm.1) := by
      intro gm hgm he
      have hmem : f ∈ List.map Prod.fst rest := by
        rw [he]
        exact List.mem_map_of_mem Prod.fst hgm
      exact hfnot hmem
    cases hp1 : processOne fs valid validation extract exps snap1 dbA f m with
    | none =>
      obtain ⟨hresolve, hdirty1⟩ := processOne_none hp1
      have hrun1 : runFound fs valid validation extract exps snap1
          ((f, m) :: rest) dbA = (dbA, [], true) := by
        rw [runFound, hp1]
      rw [hrun1]
      rw [hrun1] at hs2
      have hlook2 : lastRec snap2 f = lastRec snap1 f := by
        have h2 := hs2 (f, m) (by simp)
        have h1 := hs1 (f, m) (by simp)
        simp only at h1 h2
        rw [h2, ← h1]
      have hp2 : processOne fs valid validation extract exps snap2 dbA f m
          = none := by
        unfold processOne
        rw [hlook2]
        cases hl : lastRec snap1 f with
        | none =>
          dsimp only
          exact processDirty_none_of_resolve hresolve
        | some r =>
          dsimp only
          rw [if_neg (hdirty1 r hl)]
          exact processDirty_none_of_resolve hresolve
      rw [runFound, hp2]
      exact ⟨rfl, rfl⟩
    | some pr =>
      obtain ⟨dbA1, ops1⟩ := pr
      have hrun1 : runFound fs valid validation extract exps snap1
          ((f, m) :: rest) dbA
          = ((runFound fs valid validation extract exps snap1 rest dbA1).1,
            ops1 ++ (runFound fs valid validation extract exps snap1
              rest dbA1).2.1,
            (runFound fs valid validation extract exps snap1 rest dbA1).2.2) := by
        rw [runFound, hp1]
      have hs1f : lastRec snap1 f = lastRec dbA f := by
        have := hs1 (f, m) (by simp)
        simpa using this
      have hBf : lastRec (runFound fs valid validation extract exps snap1
          rest dbA1).1 f = lastRec dbA1 f :=
        runFound_lastRec_ne f rest dbA1 hne
      have hs2f : lastRec snap2 f
          = lastRec (runFound fs valid validation extract exps snap1
              rest dbA1).1 f := by
        have := hs2 (f, m) (by simp)
        rw [hrun1] at this
        simpa using this
      have hgood : (∃ r, lastRec (runFound fs valid validation extract exps snap1
            rest dbA1).1 f = some r ∧ r.mtime = m)
          ∨ ((∃ file, resolveFile fs f = some file
                ∧ (valid file.content || !validation) = false)
              ∧ (∀ r, lastRec (runFound fs valid validation extract exps snap1
                  rest dbA1).1 f = some r → ¬(r.mtime = m))) := by
        rcases processOne_post hp1 hs1f with hcl | hup | hinv
        · obtain ⟨hdbeq, _, r, hr, hm⟩ := hcl
          left
          refine ⟨r, ?_, hm⟩
          rw [hBf, hdbeq, hr]
        · obtain ⟨r, hr, hm⟩ := hup
          left
          refine ⟨r, ?_, hm⟩
          rw [hBf, hr]
        · obtain ⟨hdbeq, _, hfile, hdirty⟩ := hinv
          right
          refine ⟨hfile, ?_⟩
          intro r hr
          rw [hBf, hdbeq] at hr
          exact hdirty r hr
      have hp2 : processOne fs valid validation extract exps snap2
          (runFound fs valid validation extract exps snap1 rest dbA1).1 f m
          = some ((runFound fs valid validation extract exps snap1
              rest dbA1).1, []) :=
        processOne_noop hs2f hgood
      have hs1rest : ∀ gm ∈ rest, lastRec snap1 gm.1 = lastRec dbA1 gm.1 := by
        intro gm hgm
        have h1 := hs1 gm (by simp [hgm])
        rw [h1]
        unfold lastRec
        by_cases hgf : gm.1 = f
        · exfalso
          have hmem : f ∈ List.map Prod.fst rest := by
            rw [← hgf]
            exact List.mem_map_of_mem Prod.fst hgm
          exact hfnot hmem
        · rw [processOne_filter_ne gm.1 hgf hp1]
      have hs2rest : ∀ gm ∈ rest, lastRec snap2 gm.1
          = lastRec (runFound fs valid validation extract exps snap1
              rest dbA1).1 gm.1 := by
        intro gm hgm
        have h2 := hs2 gm (by simp [hgm])
        rw [hrun1] at h2
        simpa using h2
      have hih := ih hndrest dbA1 hs1rest hs2rest
      rw [hrun1]
      constructor
      · rw [runFound, hp2]
        dsimp only
        exact hih.1
      · rw [runFound, hp2]
        dsimp only
        rw [hih.2]
        rfl


theorem dictUpsertNat_keys (d : List (List Char × Nat)) (k : List Char) (v : Nat) :
    (dictUpsertNat d k v).map Prod.fst
      = if d.any (fun kv => kv.1 = k) then d.map Prod.fst
        else d.map Prod.fst ++ [k] := by
  unfold dictUpsertNat
  split
  · rw [List.map_map]
    apply map_eq_on
    intro kv _
    by_cases hk : kv.1 = k
    · simp [hk]
    · simp [hk]
  · simp

theorem foldl_upsert_nodup {C : Type} (files : List (FsFile C)) :
    ∀ acc : List (List Char × Nat), (acc.map Prod.fst).Nodup →
      ((files.foldl (fun a f => dictUpsertNat a f.name f.mtime) acc).map
        Prod.fst).Nodup := by
  induction files with
  | nil =>
    intro acc h
    exact h
  | cons f rest ih =>
    intro acc h
    simp only [List.foldl_cons]
    apply ih
    rw [dictUpsertNat_keys]
    split
    · exact h
    · next hany =>
      refine List.Nodup.append h (List.nodup_singleton _) ?_
      intro a ha hb
      simp only [List.mem_singleton] at hb
      subst hb
      obtain ⟨kv, hkv, hfst⟩ := List.mem_map.mp ha
      exact hany (List.any_eq_true.mpr ⟨kv, hkv, by simp [hfst]⟩)

theorem foundFiles_keys_nodup {C : Type} (fs : FS C) :
    ((foundFiles fs).map Prod.fst).Nodup := by
  unfold foundFiles
  split
  · apply foldl_upsert_nodup
    apply foldl_upsert_nodup
    simp
  · apply foldl_upsert_nodup
    simp

theorem lastRec_filter_contains {M : Type} (db : List (DbRec M))
    (names : List (List Char)) (f : List Char)
    (hf : names.contains f = true) :
    lastRec (db.filter (fun r => names.contains r.filename)) f
      = lastRec db f := by
  unfold lastRec
  rw [List.filter_filter]
  congr 1
  apply List.filter_congr
  intro r _
  by_cases hr : r.filename = f
  · have hmemf : f ∈ names := by simpa using hf
    simp [hr, hmemf]
  · simp [hr]

theorem processDirty_names {C M : Type} {fs : FS C} {valid : C → Bool}
    {validation : Bool} {extract : C → M}
    {exps : List (List Char × List (List Char))} {db db1 : List (DbRec M)}
    {fname : List Char} {mtime : Nat} {existed : Bool} {ops : List DbOp}
    (hres : processDirty fs valid validation extract exps db fname mtime existed
      = some (db1, ops)) :
    ∀ n ∈ db1.map (fun t => t.filename),
      n ∈ db.map (fun t => t.filename) ∨ n = fname := by
  unfold processDirty at hres
  cases hr : resolveFile fs fname with
  | none =>
    rw [hr] at hres
    exact absurd hres (by simp)
  | some file =>
    rw [hr] at hres
    dsimp only at hres
    by_cases hv : (valid file.content || !validation) = true
    · rw [if_pos hv] at hres
      cases existed with
      | true =>
        rw [if_pos rfl] at hres
        simp only [Option.some.injEq, Prod.mk.injEq] at hres
        obtain ⟨hdb, _⟩ := hres
        intro n hn
        rw [← hdb, List.map_map] at hn
        obtain ⟨t, ht, hft⟩ := List.mem_map.mp hn
        by_cases htf : t.filename = fname
        · right
          rw [← hft]
          simp [htf, mkMeta]
        · left
          rw [← hft]
          simp only [Function.comp_apply, if_neg htf]
          exact List.mem_map_of_mem _ ht
      | false =>
        rw [if_neg (show ¬(false = true) by simp)] at hres
        simp only [Option.some.injEq, Prod.mk.injEq] at hres
        obtain ⟨hdb, _⟩ := hres
        intro n hn
        rw [← hdb, List.map_append] at hn
        rcases List.mem_append.mp hn with h1 | h1
        · exact Or.inl h1
        · right
          simp [mkMeta] at h1
          exact h1
    · rw [if_neg hv] at hres
      simp only [Option.some.injEq, Prod.mk.injEq] at hres
      intro n hn
      rw [← hres.1] at hn
      exact Or.inl hn

theorem processOne_names {C M : Type} {fs : FS C} {valid : C → Bool}
    {validation : Bool} {extract : C → M}
    {exps : List (List Char × List (List Char))} {snap db db1 : List (DbRec M)}
    {fname : List Char} {mtime : Nat} {ops : List DbOp}
    (hres : processOne fs valid validation extract exps snap db fname mtime
      = some (db1, ops)) :
    ∀ n ∈ db1.map (fun t => t.filename),
      n ∈ db.map (fun t => t.filename) ∨ n = fname := by
  unfold processOne at hres
  cases hl : lastRec snap fname with
  | none =>
    rw [hl] at hres
    dsimp only at hres
    exact processDirty_names hres
  | some r =>
    rw [hl] at hres
    dsimp only at hres
    by_cases hm : r.mtime = mtime
    · rw [if_pos hm] at hres
      simp only [Option.some.injEq, Prod.mk.injEq] at hres
      intro n hn
      rw [← hres.1] at hn
      exact Or.inl hn
    · rw [if_neg hm] at hres
      exact processDirty_names hres

theorem runFound_names {C M : Type} {fs : FS C} {valid : C → Bool}
    {validation : Bool} {extract : C → M}
    {exps : List (List Char × List (List Char))} {snap : List (DbRec M)} :
    ∀ (L : List (List Char × Nat)) (db : List (DbRec M)),
      ∀ n ∈ ((runFound fs valid validation extract exps snap L db).1).map
        (fun t => t.filename),
      n ∈ db.map (fun t => t.filename) ∨ n ∈ L.map Prod.fst := by
  intro L
  induction L with
  | nil =>
    intro db n hn
    exact Or.inl hn
  | cons fm rest ih =>
    intro db n hn
    obtain ⟨fname, mtime⟩ := fm
    rw [runFound] at hn
    cases hp : processOne fs valid validation extract exps snap db fname mtime with
    | none =>
      rw [hp] at hn
      exact Or.inl hn
    | some pr =>
      obtain ⟨db1, ops1⟩ := pr
      rw [hp] at hn
      dsimp only at hn
      rcases ih db1 n hn with h1 | h1
      · rcases processOne_names hp n h1 with h2 | h2
        · exact Or.inl h2
        · right
          rw [h2]
          simp
      · right
        simp [h1]

theorem dedupFirst_subset (l : List (List Char)) :
    ∀ n ∈ dedupFirst l, n ∈ l := by
  unfold dedupFirst
  suffices h : ∀ (acc : List (List Char)) (n : List Char),
      n ∈ l.foldl (fun acc n => if acc.contains n then acc else acc ++ [n]) acc
      → n ∈ acc ∨ n ∈ l by
    intro n hn
    rcases h [] n hn with h1 | h1
    · simp at h1
    · exact h1
  induction l with
  | nil =>
    intro acc n hn
    exact Or.inl hn
  | cons a t ih =>
    intro acc n hn
    simp only [List.foldl_cons] at hn
    rcases ih _ n hn with h1 | h1
    · by_cases hc : acc.contains a = true
      · rw [if_pos hc] at h1
        exact Or.inl h1
      · rw [if_neg hc] at h1
        rcases List.mem_append.mp h1 with h2 | h2
        · exact Or.inl h2
        · simp only [List.mem_singleton] at h2
          right
          simp [h2]
    · right
      simp [h1]



/-- **C6**: running `load_tracks_incrementally` twice with no
filesystem change in between leaves the persisted store unchanged:
the second pass performs no record insertion, update, or deletion,
and the store contents after the second pass equal those after the
first.  This holds for every store state, every filesystem state and
every deterministic validator/extractor. -/
theorem C6_sync_idempotent {C M : Type} (fs : FS C) (valid : C → Bool)
    (validation : Bool) (extract : C → M) (db : List (DbRec M)) :
    (syncInc fs valid validation extract
        (syncInc fs valid validation extract db).1).1
      = (syncInc fs valid validation extract db).1
    ∧ (syncInc fs valid validation extract
        (syncInc fs valid validation extract db).1).2.1 = [] := by
  have hnodup := foundFiles_keys_nodup fs
  simp only [syncInc]
  set found := foundFiles fs with hfoundd
  set names := found.map Prod.fst with hnamesd
  set db0 := db.filter (fun r => names.contains r.filename) with hdb0d
  set run1 := runFound fs valid validation extract (existingExports fs) db
    found db0 with hrun1d
  have hnames : ∀ n ∈ (run1.1).map (fun t => t.filename),
      names.contains n = true := by
    intro n hn
    rw [hrun1d] at hn
    rcases runFound_names found db0 n hn with h1 | h1
    · obtain ⟨r, hr, hrn⟩ := List.mem_map.mp h1
      obtain ⟨_, hp⟩ := List.mem_filter.mp hr
      rw [← hrn]
      exact hp
    · have hm1 : n ∈ names := h1
      simpa using hm1
  have hfilter1 : (run1.1).filter (fun r => names.contains r.filename)
      = run1.1 := by
    apply List.filter_eq_self.mpr
    intro r hr
    exact hnames r.filename (List.mem_map_of_mem _ hr)
  have hremove2 : (dedupFirst ((run1.1).map (fun r => r.filename))).filter
      (fun n => !(names.contains n)) = [] := by
    apply List.filter_eq_nil_iff.mpr
    intro n hn
    have h2 := hnames n (dedupFirst_subset _ n hn)
    simpa using h2
  have hs1 : ∀ fm ∈ found, lastRec db fm.1 = lastRec db0 fm.1 := by
    intro fm hfm
    have hm : fm.1 ∈ names := List.mem_map_of_mem Prod.fst hfm
    have hc : names.contains fm.1 = true := by simpa using hm
    exact (lastRec_filter_contains db names fm.1 hc).symm
  have hs2 : ∀ fm ∈ found, lastRec run1.1 fm.1
      = lastRec (runFound fs valid validation extract (existingExports fs) db
          found db0).1 fm.1 := fun fm _ => by rw [hrun1d]
  have hmain := runFound_idem db run1.1 found hnodup db0 hs1 hs2
  rw [← hrun1d] at hmain
  rw [hfilter1, hremove2]
  refine ⟨hmain.1, ?_⟩
  rw [hmain.2]
  rfl

/-! ## Claim C7: export-derivative discovery -/

/-- Fixture for C7: a primary directory holding the track file
`a.json` (mtime 5) and a matching export derivative `a.csv`,
no checkpoint directory. -/
def c7Fs : FS Unit :=
  FS.mk [FsFile.mk "a.json".toList 5 (), FsFile.mk "a.csv".toList 6 ()] []
    "tracks_metadata.json".toList false

/-- Fixture for C7: the store already indexes `a.json` with an
unchanged mtime and no `exports` key. -/
def c7Db : List (DbRec Unit) :=
  [DbRec.mk "a.json".toList 5 false () none]

/-- **C7** counterexample: export discovery finds the derivatives
`json` and `csv` for the stem of the indexed file `a.json`, yet a
sync pass over the unmodified file performs no store mutation and
leaves the record without any export set: discovery is not applied to
records whose backing file was neither new nor modified. -/
theorem C7_counterexample :
    dictGetExp (existingExports c7Fs) (stemCL "a.json".toList)
      = some ["json".toList, "csv".toList]
    ∧ (syncInc c7Fs (fun _ => true) true (fun _ => ()) c7Db).1 = c7Db
    ∧ (syncInc c7Fs (fun _ => true) true (fun _ => ()) c7Db).2.1 = []
    ∧ c7Db.map (fun r => r.exports) = [none] := by decide

/-- **C7** (corrected): the export map is recomputed in full from
the primary directory each pass (`existingExports`), but it is
consulted only inside the dirty branch of the per-file loop: a found
file whose snapshot record has an unchanged mtime is skipped with no
store mutation at all (its record keeps its previous export set),
while a valid new file is inserted with exactly the discovery entry
for its base name. -/
theorem C7_export_attach {C M : Type} (fs : FS C) (valid : C → Bool)
    (validation : Bool) (extract : C → M) :
    (∀ (snap db : List (DbRec M)) (fname : List Char) (mtime : Nat)
        (r : DbRec M), lastRec snap fname = some r → r.mtime = mtime →
      processOne fs valid validation extract (existingExports fs) snap db
          fname mtime = some (db, []))
    ∧ (∀ (snap db : List (DbRec M)) (fname : List Char) (mtime : Nat)
        (file : FsFile C), lastRec snap fname = none →
      resolveFile fs fname = some file →
      (valid file.content || !validation) = true →
      processOne fs valid validation extract (existingExports fs) snap db
          fname mtime
        = some (db ++ [DbRec.mk fname mtime
            (endsWithCL fname ".chk.json".toList) (extract file.content)
            (dictGetExp (existingExports fs) (baseNameCL fname))],
          [DbOp.insertRec fname])) := by
  constructor
  · intro snap db fname mtime r hr hm
    unfold processOne
    rw [hr]
    dsimp only
    rw [if_pos hm]
  · intro snap db fname mtime file hnone hres hv
    unfold processOne
    rw [hnone]
    dsimp only
    unfold processDirty
    rw [hres]
    dsimp only
    rw [if_pos hv]
    rw [if_neg (show ¬(false = true) by simp)]
    rfl

theorem C7_export_attach_witness :
    processOne c7Fs (fun _ => true) true (fun _ => ())
        (existingExports c7Fs) c7Db c7Db ("a.json".toList) 5
      = some (c7Db, [])
    ∧ processOne c7Fs (fun _ => true) true (fun _ => ())
        (existingExports c7Fs) [] [] ("a.json".toList) 7
      = some ([DbRec.mk ("a.json".toList) 7
          (endsWithCL ("a.json".toList) ".chk.json".toList) ()
          (dictGetExp (existingExports c7Fs) (baseNameCL ("a.json".toList)))],
        [DbOp.insertRec ("a.json".toList)]) :=
  ⟨(C7_export_attach c7Fs (fun _ => true) true (fun _ => ())).1 c7Db c7Db
      ("a.json".toList) 5 (DbRec.mk "a.json".toList 5 false () none)
      (by decide) (by decide),
   (C7_export_attach c7Fs (fun _ => true) true (fun _ => ())).2 [] []
      ("a.json".toList) 7 (FsFile.mk "a.json".toList 5 ())
      (by decide) (by decide) (by decide)⟩

end Mothics
